import Mathlib

/-!
Verification of the obsync-pg synchronization core against its specification.

The Go sources are shallowly embedded:
* `internal/watcher` (debouncer.go, watcher.go): `EventType`, `FileEvent`,
  `DebouncerSt` with `add`/`emit`, mirroring `Debouncer.Add` / `Debouncer.emit`.
* `internal/sync/state.go`: `FileState`, `SyncState`, `StateTracker` with
  `needsSync`, `setFileState`, `removeFileState`, `save`, `newStateTracker`.
* `internal/sync` engine (sync.go): `Engine`, `upsertFile`, `syncNote`,
  `syncAttachment`, `removeFile`, `syncFile`, `fullReconcile`.

Go maps are modelled as association lists keyed by `String` with the helper
operations `alookup` / `aset` / `aremove` (assignment replaces the entry for an
existing key; iteration order of Go maps is not observable in any claim proved
here).  External collaborators (filesystem, PostgreSQL store, glob matcher,
markdown parser) are modelled as oracles carried by an `Env` record: each remote
or filesystem operation reads its outcome from the oracle, and every call made
to the remote store is recorded in a `calls` trace so that frame properties
("no remote call occurs") can be stated.
-/

namespace ObsyncPG

/-- Go map assignment/lookup/deletion, modelled on `List (String × α)`. -/
def alookup {α : Type} (k : String) : List (String × α) → Option α
  | [] => none
  | (k', v) :: rest => if k' = k then some v else alookup k rest

/-- `delete(m, k)` on a Go map: drop every entry keyed `k`. -/
def aremove {α : Type} (k : String) : List (String × α) → List (String × α)
  | [] => []
  | (k', v) :: rest => if k' = k then aremove k rest else (k', v) :: aremove k rest

/-- `m[k] = v` on a Go map: replace any existing entry for `k`, else add one. -/
def aset {α : Type} (k : String) (v : α) (l : List (String × α)) : List (String × α) :=
  (k, v) :: aremove k l

@[simp] theorem alookup_nil {α : Type} (k : String) : alookup (α := α) k [] = none := rfl

@[simp] theorem alookup_cons {α : Type} (k k' : String) (v : α) (l : List (String × α)) :
    alookup k ((k', v) :: l) = if k' = k then some v else alookup k l := rfl

@[simp] theorem alookup_aset_self {α : Type} (k : String) (v : α) (l : List (String × α)) :
    alookup k (aset k v l) = some v := by simp [aset]

@[simp] theorem alookup_aremove_self {α : Type} (k : String) (l : List (String × α)) :
    alookup k (aremove k l) = none := by
  induction l with
  | nil => rfl
  | cons kv rest ih =>
    obtain ⟨k', v⟩ := kv
    by_cases hk : k' = k
    · simp [aremove, hk, ih]
    · simp [aremove, hk, ih]

theorem alookup_aremove_ne {α : Type} (k q : String) (l : List (String × α)) (h : q ≠ k) :
    alookup q (aremove k l) = alookup q l := by
  induction l with
  | nil => rfl
  | cons kv rest ih =>
    obtain ⟨k', v⟩ := kv
    simp only [aremove]
    by_cases hk : k' = k
    · have hkq : ¬ (k' = q) := fun hq => h (by rw [← hq]; exact hk)
      rw [if_pos hk, ih, alookup_cons, if_neg hkq]
    · rw [if_neg hk, alookup_cons, alookup_cons]
      by_cases hq : k' = q
      · rw [if_pos hq, if_pos hq]
      · rw [if_neg hq, if_neg hq, ih]

theorem alookup_aset_ne {α : Type} (k q : String) (v : α) (l : List (String × α)) (h : q ≠ k) :
    alookup q (aset k v l) = alookup q l := by
  have hkq : ¬ (k = q) := fun hq => h hq.symm
  simp [aset, hkq, alookup_aremove_ne k q l h]

/-- A key is present in an association list iff `alookup` finds it. -/
theorem alookup_isSome_iff_mem {α : Type} (k : String) (l : List (String × α)) :
    (alookup k l).isSome = true ↔ k ∈ l.map Prod.fst := by
  induction l with
  | nil => simp
  | cons kv rest ih =>
    obtain ⟨k', v⟩ := kv
    by_cases hk : k' = k
    · subst hk; simp
    · simp only [alookup_cons, hk, if_false, List.map_cons, List.mem_cons]
      rw [ih]
      constructor
      · exact fun h => Or.inr h
      · rintro (h | h)
        · exact absurd h.symm hk
        · exact h

/-! ## Debouncer (internal/watcher/debouncer.go) -/

/-- `EventType` from debouncer.go. -/
inductive EventType where
  | create
  | modify
  | delete
  | rename
deriving DecidableEq, Repr

/-- `FileEvent` from debouncer.go; the timestamp is an abstract tick. -/
structure FileEvent where
  path : String
  eventType : EventType
  timestamp : Nat
deriving DecidableEq, Repr

/--
The debouncer's pending-event map (`Debouncer.events`).  Timers are modelled by
the settlement operation `emit` below: a quiet-window expiry for a path removes
its pending entry and hands the coalesced event to the consumer.  The `stopCh`
early-return in `Add` and the mutex are not modelled (all claims concern a
running debouncer and the lock only serializes map access).
-/
structure DebouncerSt where
  events : List (String × FileEvent)
deriving DecidableEq, Repr

/--
Event-type coalescing from `Debouncer.Add`:
DELETE always wins; CREATE + MODIFY stays CREATE; otherwise, unless the pending
event is already DELETE, the incoming type replaces the pending one.
-/
def coalesceType (pending incoming : EventType) : EventType :=
  if incoming = .delete then .delete
  else if pending = .create ∧ incoming = .modify then pending
  else if pending ≠ .delete then incoming
  else pending

/--
`Debouncer.Add`: if no pending event exists for the path, insert a fresh one
(and start its timer); otherwise coalesce the type, refresh the timestamp, and
restart the timer.  Only the `Path` field of the stored event is left untouched
by the coalescing branch, exactly as in the Go code.
-/
def DebouncerSt.add (d : DebouncerSt) (path : String) (t : EventType) (now : Nat) :
    DebouncerSt :=
  match alookup path d.events with
  | some pending =>
      ⟨aset path { pending with eventType := coalesceType pending.eventType t,
                                timestamp := now } d.events⟩
  | none =>
      ⟨(path, ⟨path, t, now⟩) :: d.events⟩

/--
`Debouncer.emit`: on quiet-window expiry the pending entry for the path is
removed from the map and (when one existed) delivered to the output channel.
The returned `Option FileEvent` is what reaches the consumer.
-/
def DebouncerSt.emit (d : DebouncerSt) (path : String) : Option FileEvent × DebouncerSt :=
  match alookup path d.events with
  | some pending => (some pending, ⟨aremove path d.events⟩)
  | none => (none, d)

/-- A burst of `Add` calls, in arrival order. -/
def DebouncerSt.addSeq (d : DebouncerSt) : List (String × EventType × Nat) → DebouncerSt
  | [] => d
  | (p, t, n) :: rest => (d.add p t n).addSeq rest

@[simp] theorem coalesceType_delete_right (pending : EventType) :
    coalesceType pending .delete = .delete := by
  simp [coalesceType]

@[simp] theorem coalesceType_delete_left (incoming : EventType) :
    coalesceType .delete incoming = .delete := by
  cases incoming <;> simp [coalesceType]

theorem add_lookup_self_of_pending (d : DebouncerSt) (p : String) (t : EventType) (n : Nat)
    (ev : FileEvent) (h : alookup p d.events = some ev) :
    alookup p (d.add p t n).events =
      some { ev with eventType := coalesceType ev.eventType t, timestamp := n } := by
  simp [DebouncerSt.add, h]

theorem add_lookup_self_of_fresh (d : DebouncerSt) (p : String) (t : EventType) (n : Nat)
    (h : alookup p d.events = none) :
    alookup p (d.add p t n).events = some ⟨p, t, n⟩ := by
  simp [DebouncerSt.add, h]

/-- After a burst for one path starting from pending event `ev`, the pending
event's type is the left fold of `coalesceType` over the arrival order. -/
theorem addSeq_lookup_fold (p : String) :
    ∀ (adds : List (EventType × Nat)) (d : DebouncerSt) (ev : FileEvent),
      alookup p d.events = some ev →
      ∃ n, alookup p (d.addSeq (adds.map fun a => (p, a.1, a.2))).events =
        some ⟨ev.path, adds.foldl (fun acc a => coalesceType acc a.1) ev.eventType, n⟩ := by
  intro adds
  induction adds with
  | nil =>
    intro d ev h
    exact ⟨ev.timestamp, by simpa [DebouncerSt.addSeq] using h⟩
  | cons a rest ih =>
    intro d ev h
    have hstep := add_lookup_self_of_pending d p a.1 a.2 ev h
    simpa [DebouncerSt.addSeq] using ih (d.add p a.1 a.2) _ hstep

/-- If a fold input contains `delete` (or the accumulator is already `delete`),
the fold result is `delete`. -/
theorem foldl_coalesce_delete :
    ∀ (ts : List (EventType × Nat)) (acc : EventType),
      (acc = .delete ∨ .delete ∈ ts.map Prod.fst) →
      ts.foldl (fun acc a => coalesceType acc a.1) acc = .delete := by
  intro ts
  induction ts with
  | nil =>
    intro acc h
    rcases h with h | h
    · exact h
    · simp at h
  | cons a rest ih =>
    intro acc h
    rcases h with h | h
    · subst h
      exact ih _ (Or.inl (coalesceType_delete_left a.1))
    · simp only [List.map_cons, List.mem_cons] at h
      rcases h with h | h
      · exact ih _ (Or.inl (h ▸ coalesceType_delete_right acc))
      · exact ih _ (Or.inr h)

/--
C3: for every sequence of `Debouncer.Add` calls for the same path within one
quiet window that contains a `delete`, the settled event for that path has type
`delete`; a `delete` overrides any pending type, and once pending is `delete`
later `create`/`modify` calls do not change it.  Exactly one event settles for
the path: after the expiry hands it over, nothing is pending for the path.
-/
theorem claim_C3_delete_dominance (d₀ : DebouncerSt) (p : String)
    (adds : List (EventType × Nat))
    (h0 : alookup p d₀.events = none)
    (hne : adds ≠ [])
    (hdel : EventType.delete ∈ adds.map Prod.fst) :
    ∃ (n : Nat) (d' : DebouncerSt),
      (d₀.addSeq (adds.map fun a => (p, a.1, a.2))).emit p = (some ⟨p, .delete, n⟩, d')
      ∧ (d'.emit p).1 = none := by
  cases adds with
  | nil => exact absurd rfl hne
  | cons a rest =>
    have hstep := add_lookup_self_of_fresh d₀ p a.1 a.2 h0
    obtain ⟨n, hn⟩ := addSeq_lookup_fold p rest (d₀.add p a.1 a.2) ⟨p, a.1, a.2⟩ hstep
    simp only [List.map_cons, List.mem_cons] at hdel
    have hfold : rest.foldl (fun acc x => coalesceType acc x.1) a.1 = .delete := by
      apply foldl_coalesce_delete
      rcases hdel with h | h
      · exact Or.inl h.symm
      · exact Or.inr h
    rw [hfold] at hn
    refine ⟨n, ⟨aremove p (d₀.addSeq ((a :: rest).map fun a => (p, a.1, a.2))).events⟩, ?_, ?_⟩
    · simp only [List.map_cons, DebouncerSt.addSeq] at hn ⊢
      simp [DebouncerSt.emit, hn]
    · simp [DebouncerSt.emit]

/-- Witness for C3 at a concrete burst `create; delete`. -/
theorem claim_C3_delete_dominance_witness :
    ∃ (n : Nat) (d' : DebouncerSt),
      ((⟨[]⟩ : DebouncerSt).addSeq
          ([((.create : EventType), 1), (.delete, 2)].map fun a => ("n.md", a.1, a.2))).emit "n.md"
        = (some ⟨"n.md", .delete, n⟩, d')
      ∧ (d'.emit "n.md").1 = none :=
  claim_C3_delete_dominance ⟨[]⟩ "n.md" [(.create, 1), (.delete, 2)]
    rfl (by decide) (by decide)

/--
C4: debouncer coalescing is deterministic in arrival order — a pending `create`
followed by `modify` stays `create`; a pending `modify` followed by `modify`
stays `modify`; and the burst `Add(p, create); Add(p, modify); Add(p, modify)`
within one quiet window settles as exactly one event `(p, create)`.
-/
theorem claim_C4_coalescing :
    (∀ (d : DebouncerSt) (p : String) (ev : FileEvent) (n : Nat),
        alookup p d.events = some ev → ev.eventType = .create →
        alookup p (d.add p .modify n).events = some ⟨ev.path, .create, n⟩) ∧
    (∀ (d : DebouncerSt) (p : String) (ev : FileEvent) (n : Nat),
        alookup p d.events = some ev → ev.eventType = .modify →
        alookup p (d.add p .modify n).events = some ⟨ev.path, .modify, n⟩) ∧
    (∀ (p : String) (n₁ n₂ n₃ : Nat),
        ∃ d' : DebouncerSt,
          ((⟨[]⟩ : DebouncerSt).addSeq
              [(p, .create, n₁), (p, .modify, n₂), (p, .modify, n₃)]).emit p
            = (some ⟨p, .create, n₃⟩, d')
          ∧ (d'.emit p).1 = none) := by
  refine ⟨?_, ?_, ?_⟩
  · intro d p ev n h hc
    rw [add_lookup_self_of_pending d p .modify n ev h, hc]
    rfl
  · intro d p ev n h hm
    rw [add_lookup_self_of_pending d p .modify n ev h, hm]
    rfl
  · intro p n₁ n₂ n₃
    refine ⟨⟨[]⟩, ?_, rfl⟩
    simp [DebouncerSt.addSeq, DebouncerSt.add, DebouncerSt.emit, aset, aremove,
      coalesceType]

/-- Witness for C4 at concrete debouncer states and the concrete burst. -/
theorem claim_C4_coalescing_witness :
    alookup "a.md" ((DebouncerSt.mk [("a.md", ⟨"a.md", .create, 0⟩)]).add "a.md" .modify 5).events
      = some ⟨"a.md", EventType.create, 5⟩
    ∧ alookup "b.md" ((DebouncerSt.mk [("b.md", ⟨"b.md", .modify, 0⟩)]).add "b.md" .modify 5).events
      = some ⟨"b.md", EventType.modify, 5⟩
    ∧ ∃ d' : DebouncerSt,
        ((⟨[]⟩ : DebouncerSt).addSeq
            [("c.md", .create, 1), ("c.md", .modify, 2), ("c.md", .modify, 3)]).emit "c.md"
          = (some ⟨"c.md", .create, 3⟩, d')
        ∧ (d'.emit "c.md").1 = none :=
  ⟨claim_C4_coalescing.1 ⟨[("a.md", ⟨"a.md", .create, 0⟩)]⟩ "a.md" ⟨"a.md", .create, 0⟩ 5
      (by decide) rfl,
   claim_C4_coalescing.2.1 ⟨[("b.md", ⟨"b.md", .modify, 0⟩)]⟩ "b.md" ⟨"b.md", .modify, 0⟩ 5
      (by decide) rfl,
   claim_C4_coalescing.2.2 "c.md" 1 2 3⟩

/-! ## State tracker (internal/sync/state.go) -/

/-- `FileState` from state.go; times are abstract ticks, size in bytes. -/
structure FileState where
  hash : String
  lastSynced : Nat
  lastModified : Nat
  sizeBytes : Int
deriving DecidableEq, Repr

/-- `SyncState` from state.go.  `files` models the Go map `Files`. -/
structure SyncState where
  vaultPath : String
  lastFullSync : Option Nat
  files : List (String × FileState)
deriving DecidableEq, Repr

/--
`StateTracker` from state.go.  The `RWMutex` only serializes access and is not
modelled; `filePath` is the state-file location derived in `NewStateTracker`
from the state directory and a hash of the vault path (that derivation is I/O
glue and the path value is opaque to every claim).
-/
structure StateTracker where
  state : SyncState
  filePath : String
  dirty : Bool
deriving DecidableEq, Repr

/--
`NewStateTracker`: start from an empty state tagged with the current vault
path, replace it by the loaded snapshot when `load` succeeds (`loaded = some`;
`none` covers both a missing file and an unreadable/unparsable one, in which
case the code keeps the empty state), then discard the result if its recorded
vault path differs from the current one.  Go's `state.Files == nil` fix-up is
the identity here since the empty map is already `[]`.
-/
def newStateTracker (loaded : Option SyncState) (vaultPath filePath : String) :
    StateTracker :=
  let st : StateTracker :=
    { state := ⟨vaultPath, none, []⟩, filePath := filePath, dirty := false }
  let st :=
    match loaded with
    | none => st
    | some s => { st with state := s }
  if st.state.vaultPath ≠ vaultPath then
    { st with state := ⟨vaultPath, none, []⟩ }
  else st

/-- A single filesystem mutation performed by `Save`.  The payload of a write
is carried as the snapshot value itself (serialization is not modelled). -/
inductive FsOp where
  | writeFile (path : String) (data : SyncState)
  | rename (src dst : String)
deriving DecidableEq, Repr

/--
`StateTracker.Save`: nothing happens when the dirty flag is clear; otherwise
the snapshot is written directly to `filePath` with `os.WriteFile` and, only if
that write succeeds (`writeOk`), the dirty flag is cleared.  The returned
`Bool` is `true` exactly when Save returns a nil error, and the op list records
the filesystem mutations issued.  (`json.MarshalIndent` cannot fail on this
data and is not modelled.)
-/
def StateTracker.save (writeOk : Bool) (st : StateTracker) :
    Bool × StateTracker × List FsOp :=
  if ¬ st.dirty then (true, st, [])
  else if writeOk then (true, { st with dirty := false }, [.writeFile st.filePath st.state])
  else (false, st, [.writeFile st.filePath st.state])

/--
Modelled from the spec: the write pattern the spec ascribes to `Save` —
either no write at all, or a write to a temporary location followed by an
atomic swap (rename) of that temporary file into the final path.  This
definition follows the spec's words, for comparison against
`StateTracker.save` above, which is translated from the code.
-/
def specAtomicSaveShape (finalPath : String) (ops : List FsOp) : Prop :=
  ops = [] ∨ ∃ tmp data, tmp ≠ finalPath ∧
    ops = [FsOp.writeFile tmp data, FsOp.rename tmp finalPath]

/-- `StateTracker.NeedsSync`: true if untracked or the tracked hash differs. -/
def StateTracker.needsSync (st : StateTracker) (path hash : String) : Bool :=
  match alookup path st.state.files with
  | none => true
  | some fs => fs.hash ≠ hash

/-- `StateTracker.SetFileState`. -/
def StateTracker.setFileState (st : StateTracker) (path : String) (fs : FileState) :
    StateTracker :=
  { st with state := { st.state with files := aset path fs st.state.files }, dirty := true }

/-- `StateTracker.RemoveFileState`. -/
def StateTracker.removeFileState (st : StateTracker) (path : String) : StateTracker :=
  { st with state := { st.state with files := aremove path st.state.files }, dirty := true }

/-- `StateTracker.SetLastFullSync`. -/
def StateTracker.setLastFullSync (st : StateTracker) (t : Nat) : StateTracker :=
  { st with state := { st.state with lastFullSync := some t }, dirty := true }

/--
C2 counterexample: the claim that `Save` writes to a temporary location and
atomically swaps it into place is false on the code.  For a concrete dirty
tracker, the op list of a (successful) `Save` is a single direct write to the
final state-file path, which does not match the spec's temp-write-then-rename
pattern.
-/
theorem claim_C2_counterexample :
    ¬ specAtomicSaveShape "state-abc.json"
        (StateTracker.save true
          ⟨⟨"/vault", none, [("a.md", ⟨"H1", 0, 0, 5⟩)]⟩, "state-abc.json", true⟩).2.2 := by
  intro h
  rcases h with h | ⟨tmp, data, hne, h⟩
  · simp [StateTracker.save] at h
  · rw [show (StateTracker.save true
        ⟨⟨"/vault", none, [("a.md", ⟨"H1", 0, 0, 5⟩)]⟩, "state-abc.json", true⟩).2.2
        = [FsOp.writeFile "state-abc.json" ⟨"/vault", none, [("a.md", ⟨"H1", 0, 0, 5⟩)]⟩]
      from rfl] at h
    have := congrArg List.length h
    simp at this

/--
C2 (amended): `Save` performs no filesystem write at all when the dirty flag
is clear (returning success and leaving the tracker unchanged); when the flag
is set it issues exactly one direct `os.WriteFile` of the snapshot to the
final state-file path — there is no temporary file and no atomic rename — and
clears the dirty flag only if that write succeeds.
-/
theorem claim_C2_save_direct (st : StateTracker) (writeOk : Bool) :
    (st.dirty = false → st.save writeOk = (true, st, [])) ∧
    (st.dirty = true →
      (st.save writeOk).2.2 = [FsOp.writeFile st.filePath st.state] ∧
      (st.save writeOk).2.1.dirty = !writeOk) := by
  constructor
  · intro h
    simp [StateTracker.save, h]
  · intro h
    cases writeOk <;> simp [StateTracker.save, h]

/-- Witness for C2 (amended) at concrete clean and dirty trackers. -/
theorem claim_C2_save_direct_witness :
    ((⟨⟨"/v", none, []⟩, "sf.json", false⟩ : StateTracker).save true
        = (true, ⟨⟨"/v", none, []⟩, "sf.json", false⟩, []))
    ∧ ((⟨⟨"/v", none, []⟩, "sf.json", true⟩ : StateTracker).save true).2.2
        = [FsOp.writeFile "sf.json" ⟨"/v", none, []⟩] :=
  ⟨(claim_C2_save_direct ⟨⟨"/v", none, []⟩, "sf.json", false⟩ true).1 rfl,
   ((claim_C2_save_direct ⟨⟨"/v", none, []⟩, "sf.json", true⟩ true).2 rfl).1⟩

/--
C7: when the persisted snapshot loads but its recorded vault path differs from
the current root, `NewStateTracker` discards it and reinitializes the state
empty: the tracked-file map is empty and the tracker's vault path is the
current root.
-/
theorem claim_C7_root_mismatch_reset (loaded : SyncState) (vaultPath filePath : String)
    (h : loaded.vaultPath ≠ vaultPath) :
    (newStateTracker (some loaded) vaultPath filePath).state = ⟨vaultPath, none, []⟩ := by
  simp [newStateTracker, h]

/-- Witness for C7: a snapshot recorded for `/old` loaded for root `/new`. -/
theorem claim_C7_root_mismatch_reset_witness :
    (newStateTracker (some ⟨"/old", some 9, [("a.md", ⟨"H1", 0, 0, 5⟩)]⟩)
        "/new" "sf.json").state = ⟨"/new", none, []⟩ :=
  claim_C7_root_mismatch_reset ⟨"/old", some 9, [("a.md", ⟨"H1", 0, 0, 5⟩)]⟩
    "/new" "sf.json" (by decide)

/-! ## Sync engine (internal/sync/sync.go) -/

/--
The observable filesystem state of one local path, as the engine's syscalls
see it (`os.Stat`, `HashFile`, `os.ReadFile`).  `statErr` models a stat error
other than not-exists; `hashResult = none` models an I/O failure while hashing
(including the file vanishing between stat and open); `readOk = false` models
an `os.ReadFile` error.  Attachment bytes and MIME detection are not observed
by any claim and are not carried.
-/
structure LocalFile where
  isDir : Bool
  statErr : Bool
  size : Int
  modTime : Nat
  hashResult : Option String
  readOk : Bool
deriving DecidableEq, Repr

/-- The slice of `config.Config` the engine reads.  `maxBinarySize` is
`MaxBinarySizeMB * 1024 * 1024`, already converted to bytes. -/
structure Config where
  ignorePatterns : List String
  includePatterns : List String
  maxBinarySize : Int
  retryAttempts : Nat
deriving DecidableEq, Repr

/--
Oracles for the external collaborators: the filesystem (walk enumeration and
per-path observations), the glob matcher (`doublestar.Match`; its error return
makes the pattern skip, folded into the Bool), the markdown parser, and the
failure behavior of each remote-store operation.  `entries` is the sequence of
(path, isDir) visits `filepath.WalkDir` makes (subtrees pruned by `SkipDir`
simply do not appear).  `now` is the engine's clock tick used for
`time.Now()`.
-/
structure Env where
  entries : List (String × Bool)
  fileAt : String → Option LocalFile
  now : Nat
  globMatch : String → String → Bool
  parseFails : String → Bool
  noteUpsertFails : String → Bool
  attUpsertFails : String → Bool
  deleteNoteFails : String → Bool
  deleteAttachmentFails : String → Bool
  batchDeleteNotesFails : Bool
  batchDeleteAttachmentsFails : Bool
  listNoteHashesFails : Bool
  listAttachmentHashesFails : Bool

/-- One call issued to the Remote Store (PostgreSQL), as recorded for frame
properties.  Write calls only; the read calls (`GetAll*Hashes`) are modelled
by their oracle outcomes. -/
inductive RemoteCall where
  | upsertNote (path hash : String)
  | upsertAttachment (path hash : String)
  | deleteNote (path : String)
  | deleteAttachment (path : String)
  | batchDeleteNotes (paths : List String)
  | batchDeleteAttachments (paths : List String)
deriving DecidableEq, Repr

/--
`Engine` together with the observable state of the remote store: `dbNotes` and
`dbAtts` are the path → content-hash views of the two tables (what
`GetAllNoteHashes` / `GetAllAttachmentHashes` return), `st` is the engine's
`StateTracker`, `retryQueue` the path → retry-count map, and `calls` the trace
of remote write calls issued so far.
-/
structure Engine where
  st : StateTracker
  dbNotes : List (String × String)
  dbAtts : List (String × String)
  retryQueue : List (String × Nat)
  calls : List RemoteCall
deriving Repr

/-- `Engine.shouldIgnore`: any ignore-pattern match excludes; otherwise, when
include patterns are configured the path must match one of them. -/
def shouldIgnore (env : Env) (cfg : Config) (relPath : String) : Bool :=
  if cfg.ignorePatterns.any (fun pat => env.globMatch pat relPath) then true
  else if cfg.includePatterns ≠ [] then
    ! cfg.includePatterns.any (fun pat => env.globMatch pat relPath)
  else false

/-- The suffix test `strings.HasSuffix(strings.ToLower(relPath), ".md")`,
spelled over the character list so that it evaluates inside proofs. -/
def isMarkdown (relPath : String) : Bool :=
  ".md".data.isSuffixOf (relPath.data.map Char.toLower)

/--
`Engine.syncNote`: parse the file (failure propagates as an error without any
remote call), then call `UpsertNote`; the note's `ContentHash` is the computed
hash, so on success the notes table maps the path to that hash.
-/
def syncNote (env : Env) (e : Engine) (relPath hash : String) : Bool × Engine :=
  if env.parseFails relPath then (false, e)
  else
    let e := { e with calls := e.calls ++ [.upsertNote relPath hash] }
    if env.noteUpsertFails relPath then (false, e)
    else (true, { e with dbNotes := aset relPath hash e.dbNotes })

/--
`Engine.syncAttachment`: an attachment larger than `maxBinarySize` is skipped
with a nil error and no remote call; otherwise the bytes are read (failure
propagates) and `UpsertAttachment` is called.
-/
def syncAttachment (env : Env) (cfg : Config) (e : Engine) (relPath : String)
    (f : LocalFile) (hash : String) : Bool × Engine :=
  if f.size > cfg.maxBinarySize then (true, e)
  else if ¬ f.readOk = true then (false, e)
  else
    let e := { e with calls := e.calls ++ [.upsertAttachment relPath hash] }
    if env.attUpsertFails relPath then (false, e)
    else (true, { e with dbAtts := aset relPath hash e.dbAtts })

/--
`Engine.upsertFile`: stat (not-exists → benign nil; other stat error →
error), skip directories and ignored paths, hash (error propagates), skip when
`NeedsSync` is false, then route by suffix to `syncNote`/`syncAttachment`, and
on success record the new `FileState` in the tracker.  The `Bool` is `true`
exactly when the Go function returns a nil error.
-/
def upsertFile (env : Env) (cfg : Config) (e : Engine) (relPath : String) :
    Bool × Engine :=
  match env.fileAt relPath with
  | none => (true, e)
  | some f =>
    if f.statErr then (false, e)
    else if f.isDir then (true, e)
    else if shouldIgnore env cfg relPath then (true, e)
    else
      match f.hashResult with
      | none => (false, e)
      | some hash =>
        if ¬ e.st.needsSync relPath hash then (true, e)
        else
          let step :=
            if isMarkdown relPath then syncNote env e relPath hash
            else syncAttachment env cfg e relPath f hash
          if ¬ step.1 then (false, step.2)
          else
            (true, { step.2 with
                st := step.2.st.setFileState relPath
                  ⟨hash, env.now, f.modTime, f.size⟩ })

/-- `Engine.RemoveFile`: delete the remote entity for the path (notes or
attachments by suffix; errors propagate before the cache is touched), then
remove the cache entry. -/
def removeFile (env : Env) (e : Engine) (relPath : String) : Bool × Engine :=
  if isMarkdown relPath then
    let e := { e with calls := e.calls ++ [.deleteNote relPath] }
    if env.deleteNoteFails relPath then (false, e)
    else
      (true, { e with dbNotes := aremove relPath e.dbNotes,
                      st := e.st.removeFileState relPath })
  else
    let e := { e with calls := e.calls ++ [.deleteAttachment relPath] }
    if env.deleteAttachmentFails relPath then (false, e)
    else
      (true, { e with dbAtts := aremove relPath e.dbAtts,
                      st := e.st.removeFileState relPath })

/-- `Engine.SyncFile`: route a settled event by type. -/
def syncFile (env : Env) (cfg : Config) (e : Engine) (relPath : String)
    (t : EventType) : Bool × Engine :=
  match t with
  | .delete => removeFile env e relPath
  | .create => upsertFile env cfg e relPath
  | .modify => upsertFile env cfg e relPath
  | .rename => (true, e)

/-- The local-file enumeration of `FullReconcile`'s walk callback: skip
ignored paths and directories, collect the rest in visit order.  (Walk errors
make the callback skip the entry; such entries are absent from `entries`.) -/
def walkLocalFiles (env : Env) (cfg : Config) : List String :=
  go env.entries
where
  go : List (String × Bool) → List String
    | [] => []
    | (p, d) :: rest =>
      if shouldIgnore env cfg p then go rest
      else if d then go rest
      else p :: go rest

/-- The merged remote inventory `dbHashes` (notes first, then attachments;
a later Go map assignment wins, so attachments shadow notes on a shared key). -/
def dbHashLookup (e : Engine) (p : String) : Option String :=
  match alookup p e.dbAtts with
  | some h => some h
  | none => alookup p e.dbNotes

/-- The key set of the merged remote inventory. -/
def dbKeys (e : Engine) : List String :=
  (e.dbNotes.map Prod.fst ++ e.dbAtts.map Prod.fst).dedup

/--
The scanning loop of `FullReconcile`: hash each local file (a hash failure
skips the file — it enters neither `localHashes` nor `toSync`), record the
hash in `localHashes`, and add the path to `toSync` when the merged remote
inventory is missing it or disagrees.  Returns `(localHashes, toSync)`.
-/
def scanLocal (env : Env) (e : Engine) : List String → List (String × String) × List String
  | [] => ([], [])
  | p :: rest =>
    match (env.fileAt p).bind LocalFile.hashResult with
    | none => scanLocal env e rest
    | some h =>
      let acc := scanLocal env e rest
      ((p, h) :: acc.1,
       if dbHashLookup e p ≠ some h then p :: acc.2 else acc.2)

/-- `toDelete`: remote paths with no corresponding local hash. -/
def computeToDelete (e : Engine) (localHashes : List (String × String)) : List String :=
  (dbKeys e).filter (fun p => (alookup p localHashes).isNone)

/-- The sync loop of `FullReconcile`: upsert each path; on failure record the
path in the retry queue with count `0` and continue with the rest. -/
def syncAll (env : Env) (cfg : Config) : Engine → List String → Engine
  | e, [] => e
  | e, p :: rest =>
    let step := upsertFile env cfg e p
    let e' := if step.1 then step.2
              else { step.2 with retryQueue := aset p 0 step.2.retryQueue }
    syncAll env cfg e' rest

/--
The delete phase of `FullReconcile`: partition `toDelete` by suffix, issue one
batched delete per nonempty kind (a batch failure is logged and leaves that
table unchanged), then remove the cache entry of every `toDelete` path
regardless of the batch outcomes.
-/
def applyDeletes (env : Env) (e : Engine) (toDelete : List String) : Engine :=
  if toDelete = [] then e
  else
    let notesToDelete := toDelete.filter (fun p => isMarkdown p)
    let attachmentsToDelete := toDelete.filter (fun p => ! isMarkdown p)
    let e :=
      if notesToDelete ≠ [] then
        let e := { e with calls := e.calls ++ [.batchDeleteNotes notesToDelete] }
        if env.batchDeleteNotesFails then e
        else { e with dbNotes := notesToDelete.foldl (fun l p => aremove p l) e.dbNotes }
      else e
    let e :=
      if attachmentsToDelete ≠ [] then
        let e := { e with calls := e.calls ++ [.batchDeleteAttachments attachmentsToDelete] }
        if env.batchDeleteAttachmentsFails then e
        else { e with dbAtts := attachmentsToDelete.foldl (fun l p => aremove p l) e.dbAtts }
      else e
    { e with st := toDelete.foldl (fun st p => st.removeFileState p) e.st }

/-- The outcome of one full reconciliation, with the diff sets it computed. -/
structure ReconcileResult where
  engine : Engine
  localHashes : List (String × String)
  toSync : List String
  toDelete : List String
deriving Repr

/-- The body of `FullReconcile` after the two inventory fetches succeeded. -/
def fullReconcileCore (env : Env) (cfg : Config) (e : Engine) : ReconcileResult :=
  let files := walkLocalFiles env cfg
  let scanned := scanLocal env e files
  let toDelete := computeToDelete e scanned.1
  let e := syncAll env cfg e scanned.2
  let e := applyDeletes env e toDelete
  let e := { e with st := (e.st.setLastFullSync env.now) }
  -- state.Save() runs here; its filesystem effect is modelled by
  -- `StateTracker.save` and does not change any component observed below
  -- (a save failure is only logged).
  ⟨e, scanned.1, scanned.2, toDelete⟩

/--
`Engine.FullReconcile`: the walk cannot fail (callback errors are skipped);
failure of either inventory fetch aborts the reconciliation before any effect
(`none`); otherwise the core runs.
-/
def fullReconcile (env : Env) (cfg : Config) (e : Engine) : Option ReconcileResult :=
  if env.listNoteHashesFails ∨ env.listAttachmentHashesFails then none
  else some (fullReconcileCore env cfg e)

/-- `Engine.RetryFailed`: sweep the retry queue; entries at the ceiling are
dropped as permanent failures, others are re-attempted with an incremented
count and cleared on success.  (Included to fix the meaning of the queue's
counter; iterated over the queue in list order.) -/
def retryFailed (env : Env) (cfg : Config) : Engine → List (String × Nat) → Engine
  | e, [] => e
  | e, (p, count) :: rest =>
    if count ≥ cfg.retryAttempts then
      retryFailed env cfg { e with retryQueue := aremove p e.retryQueue } rest
    else
      let e := { e with retryQueue := aset p (count + 1) e.retryQueue }
      let step := upsertFile env cfg e p
      let e' := if step.1 then { step.2 with retryQueue := aremove p step.2.retryQueue }
                else step.2
      retryFailed env cfg e' rest

/-! ## Engine lemmas -/

/-- `NeedsSync` as a function of the cache entry alone. -/
def needsSyncOpt (entry : Option FileState) (hash : String) : Bool :=
  match entry with
  | none => true
  | some fs => fs.hash ≠ hash

theorem needsSync_eq (st : StateTracker) (p h : String) :
    st.needsSync p h = needsSyncOpt (alookup p st.state.files) h := rfl

/--
Env-level conditions under which `upsertFile` succeeds and writes: the file
exists, stats and hashes cleanly, is no directory, needs syncing given the
cache entry `entry`, and its kind-specific step succeeds (notes: parse and
upsert succeed; attachments: within the size cap, readable, upsert succeeds).
-/
def goodUpsert (env : Env) (cfg : Config) (p : String) (entry : Option FileState) : Bool :=
  match env.fileAt p with
  | none => false
  | some f =>
    !f.statErr && !f.isDir && !shouldIgnore env cfg p &&
    (match f.hashResult with
     | none => false
     | some h =>
       needsSyncOpt entry h &&
       (if isMarkdown p then !env.parseFails p && !env.noteUpsertFails p
        else decide (f.size ≤ cfg.maxBinarySize) && f.readOk && !env.attUpsertFails p))

/--
Env-level conditions under which `upsertFile` reaches its kind-specific step
and that step fails (the failure modes of step 6 of the incremental path:
parse error or note-upsert error for notes; read error or attachment-upsert
error for size-admissible attachments).
-/
def badUpsert (env : Env) (cfg : Config) (p : String) (entry : Option FileState) : Bool :=
  match env.fileAt p with
  | none => false
  | some f =>
    !f.statErr && !f.isDir && !shouldIgnore env cfg p &&
    (match f.hashResult with
     | none => false
     | some h =>
       needsSyncOpt entry h &&
       (if isMarkdown p then env.parseFails p || env.noteUpsertFails p
        else decide (f.size ≤ cfg.maxBinarySize) && (!f.readOk || env.attUpsertFails p)))

/-- A good upsert returns nil, maps the path to its fresh hash in the remote
inventory, records the synced `FileState`, and touches nothing else. -/
theorem upsertFile_good (env : Env) (cfg : Config) (e : Engine) (p : String)
    (hg : goodUpsert env cfg p (alookup p e.st.state.files) = true)
    (hk : isMarkdown p = true → alookup p e.dbAtts = none) :
    ∃ f h, env.fileAt p = some f ∧ f.hashResult = some h ∧
      (upsertFile env cfg e p).1 = true ∧
      dbHashLookup (upsertFile env cfg e p).2 p = some h ∧
      (∀ r, r ≠ p → dbHashLookup (upsertFile env cfg e p).2 r = dbHashLookup e r) ∧
      alookup p (upsertFile env cfg e p).2.st.state.files
        = some ⟨h, env.now, f.modTime, f.size⟩ ∧
      (∀ r, r ≠ p → alookup r (upsertFile env cfg e p).2.st.state.files
        = alookup r e.st.state.files) ∧
      (upsertFile env cfg e p).2.retryQueue = e.retryQueue ∧
      (∀ r, isMarkdown r = true →
        alookup r (upsertFile env cfg e p).2.dbAtts = alookup r e.dbAtts) ∧
      (∀ r, isMarkdown r = false →
        alookup r (upsertFile env cfg e p).2.dbNotes = alookup r e.dbNotes) := by
  unfold goodUpsert at hg
  split at hg
  · exact absurd hg (by simp)
  · rename_i f hf
    simp only [Bool.and_eq_true, Bool.not_eq_true'] at hg
    obtain ⟨⟨⟨hstat, hdir⟩, hig⟩, hmatch⟩ := hg
    split at hmatch
    · exact absurd hmatch (by simp)
    · rename_i h hh
      simp only [Bool.and_eq_true] at hmatch
      obtain ⟨hns, hstep⟩ := hmatch
      refine ⟨f, h, hf, hh, ?_⟩
      by_cases hmd : isMarkdown p = true
      · rw [if_pos hmd] at hstep
        simp only [Bool.and_eq_true, Bool.not_eq_true'] at hstep
        obtain ⟨hparse, hup⟩ := hstep
        have hcomp : upsertFile env cfg e p =
            (true, ⟨e.st.setFileState p ⟨h, env.now, f.modTime, f.size⟩,
              aset p h e.dbNotes, e.dbAtts, e.retryQueue,
              e.calls ++ [.upsertNote p h]⟩) := by
          simp [upsertFile, syncNote, hf, hh, hstat, hdir, hig, hmd, hparse, hup,
            needsSync_eq, hns]
        rw [hcomp]
        refine ⟨rfl, ?_, ?_, ?_, ?_, rfl, fun r _ => rfl, ?_⟩
        · simp [dbHashLookup, hk hmd]
        · intro r hr
          simp only [dbHashLookup]
          rw [alookup_aset_ne p r h e.dbNotes hr]
        · simp [StateTracker.setFileState]
        · intro r hr
          simp only [StateTracker.setFileState]
          exact alookup_aset_ne p r _ _ hr
        · intro r hr
          have hrp : r ≠ p := fun hrp => by rw [hrp, hmd] at hr; cases hr
          exact alookup_aset_ne p r h e.dbNotes hrp
      · rw [if_neg hmd] at hstep
        simp only [Bool.and_eq_true, Bool.not_eq_true', decide_eq_true_eq] at hstep
        obtain ⟨⟨hsize, hread⟩, hup⟩ := hstep
        have hnotgt : ¬ (f.size > cfg.maxBinarySize) := not_lt.mpr hsize
        have hmd' : isMarkdown p = false := by
          cases hx : isMarkdown p
          · rfl
          · exact absurd hx hmd
        have hcomp : upsertFile env cfg e p =
            (true, ⟨e.st.setFileState p ⟨h, env.now, f.modTime, f.size⟩,
              e.dbNotes, aset p h e.dbAtts, e.retryQueue,
              e.calls ++ [.upsertAttachment p h]⟩) := by
          simp [upsertFile, syncAttachment, hf, hh, hstat, hdir, hig, hmd', hnotgt,
            hread, hup, needsSync_eq, hns]
        rw [hcomp]
        refine ⟨rfl, ?_, ?_, ?_, ?_, rfl, ?_, fun r _ => rfl⟩
        · simp [dbHashLookup]
        · intro r hr
          simp only [dbHashLookup]
          rw [alookup_aset_ne p r h e.dbAtts hr]
        · simp [StateTracker.setFileState]
        · intro r hr
          simp only [StateTracker.setFileState]
          exact alookup_aset_ne p r _ _ hr
        · intro r hr
          have hrp : r ≠ p := fun hrp => by rw [hrp, hmd'] at hr; cases hr
          exact alookup_aset_ne p r h e.dbAtts hrp

/-- A bad upsert returns an error and leaves the remote inventory, the cache
and the retry queue unchanged (only the call trace may grow). -/
theorem upsertFile_bad (env : Env) (cfg : Config) (e : Engine) (p : String)
    (hb : badUpsert env cfg p (alookup p e.st.state.files) = true) :
    (upsertFile env cfg e p).1 = false ∧
    (upsertFile env cfg e p).2.dbNotes = e.dbNotes ∧
    (upsertFile env cfg e p).2.dbAtts = e.dbAtts ∧
    (upsertFile env cfg e p).2.st = e.st ∧
    (upsertFile env cfg e p).2.retryQueue = e.retryQueue := by
  unfold badUpsert at hb
  split at hb
  · exact absurd hb (by simp)
  · rename_i f hf
    simp only [Bool.and_eq_true, Bool.not_eq_true'] at hb
    obtain ⟨⟨⟨hstat, hdir⟩, hig⟩, hmatch⟩ := hb
    split at hmatch
    · exact absurd hmatch (by simp)
    · rename_i h hh
      simp only [Bool.and_eq_true] at hmatch
      obtain ⟨hns, hstep⟩ := hmatch
      by_cases hmd : isMarkdown p = true
      · rw [if_pos hmd] at hstep
        simp only [Bool.or_eq_true] at hstep
        rcases hstep with hparse | hup
        · have hcomp : upsertFile env cfg e p = (false, e) := by
            simp [upsertFile, syncNote, hf, hh, hstat, hdir, hig, hmd, hparse,
              needsSync_eq, hns]
          rw [hcomp]
          exact ⟨rfl, rfl, rfl, rfl, rfl⟩
        · by_cases hparse : env.parseFails p = true
          · have hcomp : upsertFile env cfg e p = (false, e) := by
              simp [upsertFile, syncNote, hf, hh, hstat, hdir, hig, hmd, hparse,
                needsSync_eq, hns]
            rw [hcomp]
            exact ⟨rfl, rfl, rfl, rfl, rfl⟩
          · have hparse' : env.parseFails p = false := by
              cases hx : env.parseFails p
              · rfl
              · exact absurd hx hparse
            have hcomp : upsertFile env cfg e p =
                (false, { e with calls := e.calls ++ [.upsertNote p h] }) := by
              simp [upsertFile, syncNote, hf, hh, hstat, hdir, hig, hmd, hparse',
                hup, needsSync_eq, hns]
            rw [hcomp]
            exact ⟨rfl, rfl, rfl, rfl, rfl⟩
      · have hmd' : isMarkdown p = false := by
          cases hx : isMarkdown p
          · rfl
          · exact absurd hx hmd
        rw [if_neg hmd] at hstep
        simp only [Bool.and_eq_true, Bool.or_eq_true, Bool.not_eq_true',
          decide_eq_true_eq] at hstep
        obtain ⟨hsize, hfailmode⟩ := hstep
        have hnotgt : ¬ (f.size > cfg.maxBinarySize) := not_lt.mpr hsize
        rcases hfailmode with hread | hup
        · have hcomp : upsertFile env cfg e p = (false, e) := by
            simp [upsertFile, syncAttachment, hf, hh, hstat, hdir, hig, hmd',
              hnotgt, hread, needsSync_eq, hns]
          rw [hcomp]
          exact ⟨rfl, rfl, rfl, rfl, rfl⟩
        · by_cases hread : f.readOk = false
          · have hcomp : upsertFile env cfg e p = (false, e) := by
              simp [upsertFile, syncAttachment, hf, hh, hstat, hdir, hig, hmd',
                hnotgt, hread, needsSync_eq, hns]
            rw [hcomp]
            exact ⟨rfl, rfl, rfl, rfl, rfl⟩
          · have hread' : f.readOk = true := by
              cases hx : f.readOk
              · exact absurd hx hread
              · rfl
            have hcomp : upsertFile env cfg e p =
                (false, { e with calls := e.calls ++ [.upsertAttachment p h] }) := by
              simp [upsertFile, syncAttachment, hf, hh, hstat, hdir, hig, hmd',
                hnotgt, hread', hup, needsSync_eq, hns]
            rw [hcomp]
            exact ⟨rfl, rfl, rfl, rfl, rfl⟩

/-- The fingerprint gate: a cache entry matching the fresh hash makes
`upsertFile` a complete no-op returning nil. -/
theorem upsertFile_gate_noop (env : Env) (cfg : Config) (e : Engine) (p : String)
    (f : LocalFile) (h : String) (fs : FileState)
    (hf : env.fileAt p = some f) (hstat : f.statErr = false)
    (hh : f.hashResult = some h)
    (hfs : alookup p e.st.state.files = some fs) (heq : fs.hash = h) :
    upsertFile env cfg e p = (true, e) := by
  have hns : e.st.needsSync p h = false := by
    rw [needsSync_eq, hfs]
    simp [needsSyncOpt, heq]
  simp [upsertFile, hf, hstat, hh, hns]

/--
Behavior of the sync loop of `FullReconcile` over a duplicate-free work list
in which every path either upserts cleanly (`goodUpsert`) or fails its
kind-specific step (`badUpsert`, only the designated path `q`): paths outside
the list keep their remote and cache entries; the retry queue gains exactly
the entry `(q, 0)` when `q` is in the list and is otherwise untouched; every
good path ends mapped to its fresh hash remotely and in the cache; and the
attachments table acquires no markdown keys.
-/
theorem syncAll_spec (env : Env) (cfg : Config) (q : String) :
    ∀ (l : List String) (e : Engine), l.Nodup →
      (∀ p, p ∈ l → p ≠ q → goodUpsert env cfg p (alookup p e.st.state.files) = true) →
      (q ∈ l → badUpsert env cfg q (alookup q e.st.state.files) = true) →
      (∀ r, isMarkdown r = true → alookup r e.dbAtts = none) →
      (∀ r, isMarkdown r = false → alookup r e.dbNotes = none) →
      ((∀ r, r ∉ l →
          dbHashLookup (syncAll env cfg e l) r = dbHashLookup e r ∧
          alookup r (syncAll env cfg e l).st.state.files = alookup r e.st.state.files) ∧
       (∀ r, alookup r (syncAll env cfg e l).retryQueue =
          if q ∈ l ∧ r = q then some 0 else alookup r e.retryQueue) ∧
       (∀ p, p ∈ l → p ≠ q → ∃ f h, env.fileAt p = some f ∧ f.hashResult = some h ∧
          dbHashLookup (syncAll env cfg e l) p = some h ∧
          alookup p (syncAll env cfg e l).st.state.files
            = some ⟨h, env.now, f.modTime, f.size⟩) ∧
       (∀ r, isMarkdown r = true → alookup r (syncAll env cfg e l).dbAtts = none) ∧
       (∀ r, isMarkdown r = false → alookup r (syncAll env cfg e l).dbNotes = none)) := by
  intro l
  induction l with
  | nil =>
    intro e _ _ _ hkind hkindN
    refine ⟨fun r _ => ⟨rfl, rfl⟩, fun r => ?_,
      fun p hp => absurd hp (List.not_mem_nil p), hkind, hkindN⟩
    simp [syncAll]
  | cons p rest ih =>
    intro e hnd hgood hbad hkind hkindN0
    rw [List.nodup_cons] at hnd
    obtain ⟨hp_rest, hnd'⟩ := hnd
    by_cases hpq : p = q
    · subst hpq
      have hbq := hbad (List.mem_cons_self p rest)
      obtain ⟨hb1, hbn, hba, hbst, hbr⟩ := upsertFile_bad env cfg e p hbq
      have hunfold : syncAll env cfg e (p :: rest) =
          syncAll env cfg
            { (upsertFile env cfg e p).2 with
              retryQueue := aset p 0 (upsertFile env cfg e p).2.retryQueue } rest := by
        simp only [syncAll, hb1]
        rfl
      have hIH := ih
        { (upsertFile env cfg e p).2 with
          retryQueue := aset p 0 (upsertFile env cfg e p).2.retryQueue }
        hnd'
        (fun p' hp' hne => by
          have : alookup p' (upsertFile env cfg e p).2.st.state.files
              = alookup p' e.st.state.files := by rw [hbst]
          rw [this]
          exact hgood p' (List.mem_cons_of_mem p hp') hne)
        (fun hq => absurd hq hp_rest)
        (fun r hr => by
          have : alookup r (upsertFile env cfg e p).2.dbAtts = alookup r e.dbAtts := by
            rw [hba]
          rw [this]
          exact hkind r hr)
        (fun r hr => by
          have : alookup r (upsertFile env cfg e p).2.dbNotes = alookup r e.dbNotes := by
            rw [hbn]
          rw [this]
          exact hkindN0 r hr)
      obtain ⟨ihframe, ihretry, ihgood, ihkind, ihkindN⟩ := hIH
      rw [hunfold]
      refine ⟨?_, ?_, ?_, ihkind, ihkindN⟩
      · intro r hr
        have hrp : r ≠ p := fun hx => hr (hx ▸ List.mem_cons_self p rest)
        have hrr : r ∉ rest := fun hx => hr (List.mem_cons_of_mem p hx)
        obtain ⟨hdb, hcache⟩ := ihframe r hrr
        constructor
        · rw [hdb]
          simp only [dbHashLookup]
          rw [show ({ (upsertFile env cfg e p).2 with
              retryQueue := aset p 0 (upsertFile env cfg e p).2.retryQueue } : Engine).dbAtts
              = e.dbAtts from hba,
            show ({ (upsertFile env cfg e p).2 with
              retryQueue := aset p 0 (upsertFile env cfg e p).2.retryQueue } : Engine).dbNotes
              = e.dbNotes from hbn]
        · rw [hcache]
          rw [show ({ (upsertFile env cfg e p).2 with
              retryQueue := aset p 0 (upsertFile env cfg e p).2.retryQueue } : Engine).st
              = e.st from hbst]
      · intro r
        rw [ihretry r]
        by_cases hrq : r = p
        · subst hrq
          have : r ∉ rest := hp_rest
          simp [this, alookup_aset_self, hbr]
        · have h1 : ¬ (r = p) := hrq
          by_cases hqrest : p ∈ rest
          · exact absurd hqrest hp_rest
          · simp only [hqrest, false_and, if_false]
            rw [alookup_aset_ne p r 0 _ h1, hbr]
            simp [h1]
      · intro p' hp' hne
        have hp'rest : p' ∈ rest := by
          rcases List.mem_cons.mp hp' with h | h
          · exact absurd h hne
          · exact h
        exact ihgood p' hp'rest hne
    · have hgp := hgood p (List.mem_cons_self p rest) hpq
      obtain ⟨f, h, hf, hh, h1, hdbp, hdbframe, hcachep, hcacheframe, hrq, hkindA, hkindN⟩ :=
        upsertFile_good env cfg e p hgp (fun hmd => hkind p hmd)
      have hunfold : syncAll env cfg e (p :: rest) =
          syncAll env cfg (upsertFile env cfg e p).2 rest := by
        simp only [syncAll, h1]
        rfl
      have hIH := ih (upsertFile env cfg e p).2 hnd'
        (fun p' hp' hne => by
          have hne_p : p' ≠ p := fun hx => hp_rest (hx ▸ hp')
          rw [hcacheframe p' hne_p]
          exact hgood p' (List.mem_cons_of_mem p hp') hne)
        (fun hq => by
          have hne_p : q ≠ p := fun hx => hpq hx.symm
          rw [hcacheframe q hne_p]
          exact hbad (List.mem_cons_of_mem p hq))
        (fun r hr => by
          rw [hkindA r hr]
          exact hkind r hr)
        (fun r hr => by
          rw [hkindN r hr]
          exact hkindN0 r hr)
      obtain ⟨ihframe, ihretry, ihgood, ihkind, ihkindN⟩ := hIH
      rw [hunfold]
      refine ⟨?_, ?_, ?_, ihkind, ihkindN⟩
      · intro r hr
        have hrp : r ≠ p := fun hx => hr (hx ▸ List.mem_cons_self p rest)
        have hrr : r ∉ rest := fun hx => hr (List.mem_cons_of_mem p hx)
        obtain ⟨hdb, hcache⟩ := ihframe r hrr
        exact ⟨by rw [hdb, hdbframe r hrp], by rw [hcache, hcacheframe r hrp]⟩
      · intro r
        rw [ihretry r, hrq]
        by_cases hqrest : q ∈ rest
        · have : q ∈ p :: rest := List.mem_cons_of_mem p hqrest
          simp [hqrest, this]
        · have hqcons : ¬ (q ∈ p :: rest) := by
            rw [List.mem_cons]
            rintro (hx | hx)
            · exact hpq hx.symm
            · exact hqrest hx
          simp [hqrest, hqcons]
      · intro p' hp' hne
        rcases List.mem_cons.mp hp' with hcase | hcase
        · subst hcase
          refine ⟨f, h, hf, hh, ?_, ?_⟩
          · obtain ⟨hdb, _⟩ := ihframe p' hp_rest
            rw [hdb, hdbp]
          · obtain ⟨_, hcache⟩ := ihframe p' hp_rest
            rw [hcache, hcachep]
        · exact ihgood p' hcase hne

/-! ## Walk, scan, delete-set and delete-phase lemmas -/

theorem walk_go_not_ignored (env : Env) (cfg : Config) :
    ∀ (l : List (String × Bool)) (p : String), p ∈ walkLocalFiles.go env cfg l →
      shouldIgnore env cfg p = false := by
  intro l
  induction l with
  | nil => intro p hp; simp [walkLocalFiles.go] at hp
  | cons x rest ih =>
    intro p hp
    obtain ⟨x1, x2⟩ := x
    simp only [walkLocalFiles.go] at hp
    by_cases hig : shouldIgnore env cfg x1 = true
    · rw [if_pos hig] at hp
      exact ih p hp
    · have hig' : shouldIgnore env cfg x1 = false := by
        cases hx : shouldIgnore env cfg x1
        · rfl
        · exact absurd hx hig
      rw [if_neg (by simp [hig']), ] at hp
      by_cases hd : x2 = true
      · rw [if_pos hd] at hp
        exact ih p hp
      · rw [if_neg hd] at hp
        rcases List.mem_cons.mp hp with h | h
        · rw [h]; exact hig'
        · exact ih p h

theorem walkLocalFiles_not_ignored (env : Env) (cfg : Config) (p : String)
    (hp : p ∈ walkLocalFiles env cfg) : shouldIgnore env cfg p = false :=
  walk_go_not_ignored env cfg env.entries p hp

theorem scanLocal_cons_none (env : Env) (e : Engine) (x : String) (rest : List String)
    (hx : (env.fileAt x).bind LocalFile.hashResult = none) :
    scanLocal env e (x :: rest) = scanLocal env e rest := by
  simp [scanLocal, hx]

theorem scanLocal_cons_some (env : Env) (e : Engine) (x : String) (rest : List String)
    (h : String) (hx : (env.fileAt x).bind LocalFile.hashResult = some h) :
    scanLocal env e (x :: rest) =
      ((x, h) :: (scanLocal env e rest).1,
        if dbHashLookup e x ≠ some h then x :: (scanLocal env e rest).2
        else (scanLocal env e rest).2) := by
  simp [scanLocal, hx]

/-- The local-hash map never holds a path whose hashing failed. -/
theorem scan_lh_none (env : Env) (e : Engine) (p : String)
    (hp : (env.fileAt p).bind LocalFile.hashResult = none) :
    ∀ files, alookup p (scanLocal env e files).1 = none := by
  intro files
  induction files with
  | nil => rfl
  | cons x rest ih =>
    simp only [scanLocal]
    cases hx : (env.fileAt x).bind LocalFile.hashResult with
    | none => exact ih
    | some h =>
      have hxp : ¬ (x = p) := fun hq => by rw [hq, hp] at hx; cases hx
      simp only [alookup_cons, hxp, if_false]
      exact ih

/-- The local-hash map records the hash of every present, hashable path. -/
theorem scan_lh_some (env : Env) (e : Engine) (p : String) (h : String)
    (hp : (env.fileAt p).bind LocalFile.hashResult = some h) :
    ∀ files, p ∈ files → alookup p (scanLocal env e files).1 = some h := by
  intro files
  induction files with
  | nil => intro hx; simp at hx
  | cons x rest ih =>
    intro hmem
    simp only [scanLocal]
    by_cases hxp : x = p
    · subst hxp
      rw [hp]
      simp
    · cases hx : (env.fileAt x).bind LocalFile.hashResult with
      | none =>
        rcases List.mem_cons.mp hmem with hc | hc
        · exact absurd hc.symm hxp
        · exact ih hc
      | some h' =>
        rcases List.mem_cons.mp hmem with hc | hc
        · exact absurd hc.symm hxp
        · simp only [alookup_cons, hxp, if_false]
          exact ih hc

/-- The local-hash map does not depend on the engine state. -/
theorem scan_lh_indep (env : Env) (e e' : Engine) :
    ∀ files, (scanLocal env e files).1 = (scanLocal env e' files).1 := by
  intro files
  induction files with
  | nil => rfl
  | cons x rest ih =>
    simp only [scanLocal]
    cases hx : (env.fileAt x).bind LocalFile.hashResult with
    | none => exact ih
    | some h => simp [ih]

/-- What membership in the computed sync set implies. -/
theorem scan_toSync_mem (env : Env) (e : Engine) :
    ∀ files p, p ∈ (scanLocal env e files).2 →
      p ∈ files ∧ ∃ h, (env.fileAt p).bind LocalFile.hashResult = some h ∧
        dbHashLookup e p ≠ some h := by
  intro files
  induction files with
  | nil => intro p hp; simp [scanLocal] at hp
  | cons x rest ih =>
    intro p hp
    simp only [scanLocal] at hp
    cases hx : (env.fileAt x).bind LocalFile.hashResult with
    | none =>
      rw [hx] at hp
      obtain ⟨hmem, hrest⟩ := ih p hp
      exact ⟨List.mem_cons_of_mem x hmem, hrest⟩
    | some h =>
      simp only [hx] at hp
      by_cases hdb : dbHashLookup e x ≠ some h
      · rw [if_pos hdb] at hp
        rcases List.mem_cons.mp hp with hc | hc
        · subst hc
          exact ⟨List.mem_cons_self p rest, h, hx, hdb⟩
        · obtain ⟨hmem, hrest⟩ := ih p hc
          exact ⟨List.mem_cons_of_mem x hmem, hrest⟩
      · rw [if_neg hdb] at hp
        obtain ⟨hmem, hrest⟩ := ih p hp
        exact ⟨List.mem_cons_of_mem x hmem, hrest⟩

/-- A present, hashable path outside the sync set agrees with the remote
inventory. -/
theorem scan_not_toSync (env : Env) (e : Engine) :
    ∀ files p h, p ∈ files → (env.fileAt p).bind LocalFile.hashResult = some h →
      p ∉ (scanLocal env e files).2 → dbHashLookup e p = some h := by
  intro files
  induction files with
  | nil => intro p h hmem; simp at hmem
  | cons x rest ih =>
    intro p h hmem hh hnot
    simp only [scanLocal] at hnot
    by_cases hxp : x = p
    · subst hxp
      simp only [hh] at hnot
      by_cases hdb : dbHashLookup e x ≠ some h
      · rw [if_pos hdb] at hnot
        exact absurd (List.mem_cons_self x _) hnot
      · exact not_not.mp hdb
    · rcases List.mem_cons.mp hmem with hc | hc
      · exact absurd hc.symm hxp
      · cases hx : (env.fileAt x).bind LocalFile.hashResult with
        | none =>
          simp only [hx] at hnot
          exact ih p h hc hh hnot
        | some h' =>
          simp only [hx] at hnot
          by_cases hdb : dbHashLookup e x ≠ some h'
          · rw [if_pos hdb] at hnot
            exact ih p h hc hh (fun hin => hnot (List.mem_cons_of_mem x hin))
          · rw [if_neg hdb] at hnot
            exact ih p h hc hh hnot

/-- When the remote inventory already matches every hashable local file, the
sync set is empty. -/
theorem scan_toSync_nil (env : Env) (e : Engine) :
    ∀ files, (∀ p ∈ files, ∀ h, (env.fileAt p).bind LocalFile.hashResult = some h →
        dbHashLookup e p = some h) →
      (scanLocal env e files).2 = [] := by
  intro files
  induction files with
  | nil => intro _; rfl
  | cons x rest ih =>
    intro hall
    cases hx : (env.fileAt x).bind LocalFile.hashResult with
    | none =>
      rw [scanLocal_cons_none env e x rest hx]
      exact ih (fun p hp => hall p (List.mem_cons_of_mem x hp))
    | some h =>
      have hdb : dbHashLookup e x = some h := hall x (List.mem_cons_self x rest) h hx
      rw [scanLocal_cons_some env e x rest h hx]
      dsimp only
      rw [if_neg (by simp [hdb])]
      exact ih (fun p hp => hall p (List.mem_cons_of_mem x hp))

/-- The sync set is a sublist of the enumerated files. -/
theorem scan_toSync_sublist (env : Env) (e : Engine) :
    ∀ files, List.Sublist (scanLocal env e files).2 files := by
  intro files
  induction files with
  | nil => exact List.Sublist.refl []
  | cons x rest ih =>
    cases hx : (env.fileAt x).bind LocalFile.hashResult with
    | none =>
      rw [scanLocal_cons_none env e x rest hx]
      exact ih.cons x
    | some h =>
      rw [scanLocal_cons_some env e x rest h hx]
      dsimp only
      by_cases hdb : dbHashLookup e x ≠ some h
      · rw [if_pos hdb]
        exact ih.cons₂ x
      · rw [if_neg hdb]
        exact ih.cons x

/-- The merged inventory finds a hash exactly for the keys of either table. -/
theorem dbHashLookup_isSome_iff (e : Engine) (r : String) :
    (dbHashLookup e r).isSome = true ↔ r ∈ dbKeys e := by
  simp only [dbKeys, List.mem_dedup, List.mem_append]
  rw [← alookup_isSome_iff_mem, ← alookup_isSome_iff_mem]
  simp only [dbHashLookup]
  cases alookup r e.dbAtts <;> simp

theorem mem_computeToDelete (e : Engine) (lh : List (String × String)) (r : String) :
    r ∈ computeToDelete e lh ↔ r ∈ dbKeys e ∧ alookup r lh = none := by
  simp [computeToDelete, List.mem_filter, Option.isNone_iff_eq_none]

theorem foldl_aremove_lookup {α : Type} :
    ∀ (names : List String) (l0 : List (String × α)) (r : String),
      alookup r (names.foldl (fun l p => aremove p l) l0) =
        if r ∈ names then none else alookup r l0 := by
  intro names
  induction names with
  | nil => intro l0 r; simp
  | cons n rest ih =>
    intro l0 r
    simp only [List.foldl_cons]
    rw [ih]
    by_cases hr : r ∈ rest
    · simp [hr]
    · by_cases hn : r = n
      · subst hn
        simp [hr]
      · simp [hr, hn, alookup_aremove_ne n r l0 hn]

theorem foldl_removeFileState_files :
    ∀ (td : List String) (st0 : StateTracker) (r : String),
      alookup r (td.foldl (fun st p => st.removeFileState p) st0).state.files =
        if r ∈ td then none else alookup r st0.state.files := by
  intro td
  induction td with
  | nil => intro st0 r; simp
  | cons n rest ih =>
    intro st0 r
    simp only [List.foldl_cons]
    rw [ih]
    by_cases hr : r ∈ rest
    · simp [hr]
    · by_cases hn : r = n
      · subst hn
        simp [hr, StateTracker.removeFileState]
      · simp [hr, hn, StateTracker.removeFileState, alookup_aremove_ne n r _ hn]

theorem applyDeletes_st (env : Env) (e : Engine) (td : List String) :
    (applyDeletes env e td).st = td.foldl (fun st p => st.removeFileState p) e.st := by
  unfold applyDeletes
  by_cases htd : td = []
  · simp [htd]
  · simp only [htd, if_false]
    split_ifs <;> rfl

theorem applyDeletes_retry (env : Env) (e : Engine) (td : List String) :
    (applyDeletes env e td).retryQueue = e.retryQueue := by
  unfold applyDeletes
  by_cases htd : td = []
  · simp [htd]
  · simp only [htd, if_false]
    split_ifs <;> rfl

theorem applyDeletes_dbNotes (env : Env) (e : Engine) (td : List String)
    (hNF : env.batchDeleteNotesFails = false) :
    (applyDeletes env e td).dbNotes =
      (td.filter (fun p => isMarkdown p)).foldl (fun l p => aremove p l) e.dbNotes := by
  unfold applyDeletes
  by_cases htd : td = []
  · simp [htd]
  · simp only [htd, if_false]
    split_ifs <;> simp_all [not_ne_iff, -List.filter_eq_nil_iff]

theorem applyDeletes_dbAtts (env : Env) (e : Engine) (td : List String)
    (hAF : env.batchDeleteAttachmentsFails = false) :
    (applyDeletes env e td).dbAtts =
      (td.filter (fun p => ! isMarkdown p)).foldl (fun l p => aremove p l) e.dbAtts := by
  unfold applyDeletes
  by_cases htd : td = []
  · simp [htd]
  · simp only [htd, if_false]
    split_ifs <;> simp_all [not_ne_iff, -List.filter_eq_nil_iff]

theorem applyDeletes_calls (env : Env) (e : Engine) (td : List String) (p : String)
    (hp : p ∈ td) :
    (isMarkdown p = true →
      RemoteCall.batchDeleteNotes (td.filter (fun x => isMarkdown x))
        ∈ (applyDeletes env e td).calls) ∧
    (isMarkdown p = false →
      RemoteCall.batchDeleteAttachments (td.filter (fun x => ! isMarkdown x))
        ∈ (applyDeletes env e td).calls) := by
  have htd : ¬ (td = []) := fun h => by rw [h] at hp; cases hp
  constructor
  · intro hmd
    have hn : ¬ (td.filter (fun x => isMarkdown x) = []) := by
      intro hnil
      have : p ∈ td.filter (fun x => isMarkdown x) := List.mem_filter.mpr ⟨hp, hmd⟩
      rw [hnil] at this
      cases this
    unfold applyDeletes
    simp only [htd, if_false]
    rw [if_pos hn]
    split_ifs <;> simp
  · intro hmd
    have ha : ¬ (td.filter (fun x => ! isMarkdown x) = []) := by
      intro hnil
      have : p ∈ td.filter (fun x => ! isMarkdown x) :=
        List.mem_filter.mpr ⟨hp, by simp [hmd]⟩
      rw [hnil] at this
      cases this
    unfold applyDeletes
    simp only [htd, if_false]
    rw [if_pos ha]  -- this rewrite targets the attachments guard
    split_ifs <;> simp

/-- `upsertFile` changes at most one table, at its own path's key, routed by
suffix: notes for `.md` paths, attachments otherwise. -/
theorem upsertFile_shape (env : Env) (cfg : Config) (e : Engine) (p : String) :
    ((upsertFile env cfg e p).2.dbAtts = e.dbAtts ∧
      (upsertFile env cfg e p).2.dbNotes = e.dbNotes) ∨
    (isMarkdown p = true ∧ (upsertFile env cfg e p).2.dbAtts = e.dbAtts ∧
      ∃ h', (upsertFile env cfg e p).2.dbNotes = aset p h' e.dbNotes) ∨
    (isMarkdown p = false ∧ (upsertFile env cfg e p).2.dbNotes = e.dbNotes ∧
      ∃ h', (upsertFile env cfg e p).2.dbAtts = aset p h' e.dbAtts) := by
  cases hfa : env.fileAt p with
  | none =>
    rw [show upsertFile env cfg e p = (true, e) by simp [upsertFile, hfa]]
    exact Or.inl ⟨rfl, rfl⟩
  | some f =>
    cases hst : f.statErr with
    | true =>
      rw [show upsertFile env cfg e p = (false, e) by simp [upsertFile, hfa, hst]]
      exact Or.inl ⟨rfl, rfl⟩
    | false =>
      cases hdir : f.isDir with
      | true =>
        rw [show upsertFile env cfg e p = (true, e) by simp [upsertFile, hfa, hst, hdir]]
        exact Or.inl ⟨rfl, rfl⟩
      | false =>
        cases hig : shouldIgnore env cfg p with
        | true =>
          rw [show upsertFile env cfg e p = (true, e) by
            simp [upsertFile, hfa, hst, hdir, hig]]
          exact Or.inl ⟨rfl, rfl⟩
        | false =>
          cases hh : f.hashResult with
          | none =>
            rw [show upsertFile env cfg e p = (false, e) by
              simp [upsertFile, hfa, hst, hdir, hig, hh]]
            exact Or.inl ⟨rfl, rfl⟩
          | some hash =>
            cases hns : e.st.needsSync p hash with
            | false =>
              rw [show upsertFile env cfg e p = (true, e) by
                simp [upsertFile, hfa, hst, hdir, hig, hh, hns]]
              exact Or.inl ⟨rfl, rfl⟩
            | true =>
              cases hmd : isMarkdown p with
              | true =>
                cases hp : env.parseFails p with
                | true =>
                  rw [show upsertFile env cfg e p = (false, e) by
                    simp [upsertFile, syncNote, hfa, hst, hdir, hig, hh, hns, hmd, hp]]
                  exact Or.inl ⟨rfl, rfl⟩
                | false =>
                  cases hup : env.noteUpsertFails p with
                  | true =>
                    rw [show upsertFile env cfg e p =
                        (false, { e with calls := e.calls ++ [.upsertNote p hash] }) by
                      simp [upsertFile, syncNote, hfa, hst, hdir, hig, hh, hns, hmd,
                        hp, hup]]
                    exact Or.inl ⟨rfl, rfl⟩
                  | false =>
                    rw [show upsertFile env cfg e p =
                        (true, ⟨e.st.setFileState p ⟨hash, env.now, f.modTime, f.size⟩,
                          aset p hash e.dbNotes, e.dbAtts, e.retryQueue,
                          e.calls ++ [.upsertNote p hash]⟩) by
                      simp [upsertFile, syncNote, hfa, hst, hdir, hig, hh, hns, hmd,
                        hp, hup]]
                    exact Or.inr (Or.inl ⟨rfl, rfl, hash, rfl⟩)
              | false =>
                by_cases hsz : f.size > cfg.maxBinarySize
                · rw [show upsertFile env cfg e p =
                      (true, { e with
                        st := e.st.setFileState p ⟨hash, env.now, f.modTime, f.size⟩ }) by
                    simp [upsertFile, syncAttachment, hfa, hst, hdir, hig, hh, hns,
                      hmd, hsz]]
                  exact Or.inl ⟨rfl, rfl⟩
                · cases hrd : f.readOk with
                  | false =>
                    rw [show upsertFile env cfg e p = (false, e) by
                      simp [upsertFile, syncAttachment, hfa, hst, hdir, hig, hh, hns,
                        hmd, hsz, hrd]]
                    exact Or.inl ⟨rfl, rfl⟩
                  | true =>
                    cases hau : env.attUpsertFails p with
                    | true =>
                      rw [show upsertFile env cfg e p =
                          (false, { e with
                            calls := e.calls ++ [.upsertAttachment p hash] }) by
                        simp [upsertFile, syncAttachment, hfa, hst, hdir, hig, hh, hns,
                          hmd, hsz, hrd, hau]]
                      exact Or.inl ⟨rfl, rfl⟩
                    | false =>
                      rw [show upsertFile env cfg e p =
                          (true, ⟨e.st.setFileState p ⟨hash, env.now, f.modTime, f.size⟩,
                            e.dbNotes, aset p hash e.dbAtts, e.retryQueue,
                            e.calls ++ [.upsertAttachment p hash]⟩) by
                        simp [upsertFile, syncAttachment, hfa, hst, hdir, hig, hh, hns,
                          hmd, hsz, hrd, hau]]
                      exact Or.inr (Or.inr ⟨rfl, rfl, hash, rfl⟩)

/-- The two remote tables stay kind-separated across the sync loop. -/
theorem syncAll_kind_preserve (env : Env) (cfg : Config) :
    ∀ (l : List String) (e : Engine),
      (∀ r, isMarkdown r = true → alookup r e.dbAtts = none) →
      (∀ r, isMarkdown r = false → alookup r e.dbNotes = none) →
      (∀ r, isMarkdown r = true → alookup r (syncAll env cfg e l).dbAtts = none) ∧
      (∀ r, isMarkdown r = false → alookup r (syncAll env cfg e l).dbNotes = none) := by
  intro l
  induction l with
  | nil => intro e hA hN; exact ⟨hA, hN⟩
  | cons p rest ih =>
    intro e hA hN
    have hshape := upsertFile_shape env cfg e p
    have hstepA : ∀ r, isMarkdown r = true →
        alookup r (upsertFile env cfg e p).2.dbAtts = none := by
      intro r hr
      rcases hshape with ⟨ha, _⟩ | ⟨_, ha, _⟩ | ⟨hmd, _, h', ha⟩
      · rw [ha]; exact hA r hr
      · rw [ha]; exact hA r hr
      · rw [ha]
        have hrp : r ≠ p := fun hx => by rw [hx, hmd] at hr; cases hr
        rw [alookup_aset_ne p r h' _ hrp]
        exact hA r hr
    have hstepN : ∀ r, isMarkdown r = false →
        alookup r (upsertFile env cfg e p).2.dbNotes = none := by
      intro r hr
      rcases hshape with ⟨_, hn⟩ | ⟨hmd, _, h', hn⟩ | ⟨_, hn, _⟩
      · rw [hn]; exact hN r hr
      · rw [hn]
        have hrp : r ≠ p := fun hx => by rw [hx, hmd] at hr; cases hr
        rw [alookup_aset_ne p r h' _ hrp]
        exact hN r hr
      · rw [hn]; exact hN r hr
    by_cases h1 : (upsertFile env cfg e p).1 = true
    · have hunfold : syncAll env cfg e (p :: rest) =
          syncAll env cfg (upsertFile env cfg e p).2 rest := by
        simp only [syncAll, h1]
        rfl
      rw [hunfold]
      exact ih (upsertFile env cfg e p).2 hstepA hstepN
    · have h1' : (upsertFile env cfg e p).1 = false := by
        cases hx : (upsertFile env cfg e p).1
        · rfl
        · exact absurd hx h1
      have hunfold : syncAll env cfg e (p :: rest) =
          syncAll env cfg
            { (upsertFile env cfg e p).2 with
              retryQueue := aset p 0 (upsertFile env cfg e p).2.retryQueue } rest := by
        simp only [syncAll, h1']
        rfl
      rw [hunfold]
      exact ih _ hstepA hstepN

/-- `syncAll_spec` in the failure-free case: every listed path upserts
cleanly, the retry queue is untouched, and nothing else changes. -/
theorem syncAll_all_good (env : Env) (cfg : Config) :
    ∀ (l : List String) (e : Engine), l.Nodup →
      (∀ p, p ∈ l → goodUpsert env cfg p (alookup p e.st.state.files) = true) →
      (∀ r, isMarkdown r = true → alookup r e.dbAtts = none) →
      (∀ r, isMarkdown r = false → alookup r e.dbNotes = none) →
      ((∀ r, r ∉ l →
          dbHashLookup (syncAll env cfg e l) r = dbHashLookup e r ∧
          alookup r (syncAll env cfg e l).st.state.files = alookup r e.st.state.files) ∧
       (syncAll env cfg e l).retryQueue = e.retryQueue ∧
       (∀ p, p ∈ l → ∃ f h, env.fileAt p = some f ∧ f.hashResult = some h ∧
          dbHashLookup (syncAll env cfg e l) p = some h ∧
          alookup p (syncAll env cfg e l).st.state.files
            = some ⟨h, env.now, f.modTime, f.size⟩)) := by
  intro l
  induction l with
  | nil =>
    intro e _ _ _ _
    exact ⟨fun r _ => ⟨rfl, rfl⟩, rfl, fun p hp => absurd hp (List.not_mem_nil p)⟩
  | cons p rest ih =>
    intro e hnd hgood hA hN
    rw [List.nodup_cons] at hnd
    obtain ⟨hp_rest, hnd'⟩ := hnd
    have hgp := hgood p (List.mem_cons_self p rest)
    obtain ⟨f, h, hf, hh, h1, hdbp, hdbframe, hcachep, hcacheframe, hrq, hkindA, hkindN⟩ :=
      upsertFile_good env cfg e p hgp (fun hmd => hA p hmd)
    have hunfold : syncAll env cfg e (p :: rest) =
        syncAll env cfg (upsertFile env cfg e p).2 rest := by
      simp only [syncAll, h1]
      rfl
    have hIH := ih (upsertFile env cfg e p).2 hnd'
      (fun p' hp' => by
        have hne_p : p' ≠ p := fun hx => hp_rest (hx ▸ hp')
        rw [hcacheframe p' hne_p]
        exact hgood p' (List.mem_cons_of_mem p hp'))
      (fun r hr => by
        rw [hkindA r hr]
        exact hA r hr)
      (fun r hr => by
        rw [hkindN r hr]
        exact hN r hr)
    obtain ⟨ihframe, ihretry, ihgood⟩ := hIH
    rw [hunfold]
    refine ⟨?_, by rw [ihretry, hrq], ?_⟩
    · intro r hr
      have hrp : r ≠ p := fun hx => hr (hx ▸ List.mem_cons_self p rest)
      have hrr : r ∉ rest := fun hx => hr (List.mem_cons_of_mem p hx)
      obtain ⟨hdb, hcache⟩ := ihframe r hrr
      exact ⟨by rw [hdb, hdbframe r hrp], by rw [hcache, hcacheframe r hrp]⟩
    · intro p' hp'
      rcases List.mem_cons.mp hp' with hcase | hcase
      · subst hcase
        refine ⟨f, h, hf, hh, ?_, ?_⟩
        · obtain ⟨hdb, _⟩ := ihframe p' hp_rest
          rw [hdb, hdbp]
        · obtain ⟨_, hcache⟩ := ihframe p' hp_rest
          rw [hcache, hcachep]
      · exact ihgood p' hcase

/-- The delete phase never touches paths outside the delete set. -/
theorem applyDeletes_db_frame (env : Env) (e : Engine) (td : List String) (r : String)
    (hr : r ∉ td) :
    dbHashLookup (applyDeletes env e td) r = dbHashLookup e r := by
  have hrn : r ∉ td.filter (fun p => isMarkdown p) :=
    fun hx => hr (List.mem_filter.mp hx).1
  have hra : r ∉ td.filter (fun p => ! isMarkdown p) :=
    fun hx => hr (List.mem_filter.mp hx).1
  unfold applyDeletes
  by_cases htd : td = []
  · simp [htd]
  · simp only [htd, if_false]
    split_ifs <;>
      simp [dbHashLookup, foldl_aremove_lookup, hrn, hra]

/-- Under successful batch deletes and kind-separated tables, every delete-set
path is gone from the merged inventory afterwards. -/
theorem applyDeletes_deleted (env : Env) (e : Engine) (td : List String) (r : String)
    (hNF : env.batchDeleteNotesFails = false)
    (hAF : env.batchDeleteAttachmentsFails = false)
    (hKA : ∀ s, isMarkdown s = true → alookup s e.dbAtts = none)
    (hKN : ∀ s, isMarkdown s = false → alookup s e.dbNotes = none)
    (hr : r ∈ td) :
    dbHashLookup (applyDeletes env e td) r = none := by
  have hnotes := applyDeletes_dbNotes env e td hNF
  have hatts := applyDeletes_dbAtts env e td hAF
  cases hmd : isMarkdown r
  · have hmemA : r ∈ td.filter (fun p => ! isMarkdown p) :=
      List.mem_filter.mpr ⟨hr, by simp [hmd]⟩
    simp only [dbHashLookup, hnotes, hatts, foldl_aremove_lookup, hmemA, if_true]
    have hrn : r ∉ td.filter (fun p => isMarkdown p) := by
      intro hx
      have := (List.mem_filter.mp hx).2
      rw [hmd] at this
      cases this
    simp [hrn, hKN r hmd]
  · have hmemN : r ∈ td.filter (fun p => isMarkdown p) :=
      List.mem_filter.mpr ⟨hr, by simp [hmd]⟩
    have hra : r ∉ td.filter (fun p => ! isMarkdown p) := by
      intro hx
      have := (List.mem_filter.mp hx).2
      rw [hmd] at this
      cases this
    simp [dbHashLookup, hnotes, hatts, foldl_aremove_lookup, hmemN, hra, hKA r hmd]

/--
C1 (amended): during full reconciliation with exactly one failing upsert among
the files to sync, the remaining files are all processed and upserted (each
ends mapped to its fresh hash remotely and recorded as synced in the cache),
and the failing path is entered into the retry queue with attempt count 0 —
not 1 — as the only retry entry.
-/
theorem claim_C1_partial_failure_isolation
    (env : Env) (cfg : Config) (e₀ : Engine) (q : String)
    (hL1 : env.listNoteHashesFails = false)
    (hL2 : env.listAttachmentHashesFails = false)
    (hRQ : e₀.retryQueue = [])
    (hKA : ∀ r, isMarkdown r = true → alookup r e₀.dbAtts = none)
    (hKN : ∀ r, isMarkdown r = false → alookup r e₀.dbNotes = none)
    (hND : (walkLocalFiles env cfg).Nodup)
    (hq : q ∈ (scanLocal env e₀ (walkLocalFiles env cfg)).2)
    (hbad : badUpsert env cfg q (alookup q e₀.st.state.files) = true)
    (hgood : ∀ p, p ∈ (scanLocal env e₀ (walkLocalFiles env cfg)).2 → p ≠ q →
      goodUpsert env cfg p (alookup p e₀.st.state.files) = true) :
    ∃ r : ReconcileResult, fullReconcile env cfg e₀ = some r ∧
      alookup q r.engine.retryQueue = some 0 ∧
      (∀ x, x ≠ q → alookup x r.engine.retryQueue = none) ∧
      (∀ p, p ∈ r.toSync → p ≠ q →
        ∃ f h, env.fileAt p = some f ∧ f.hashResult = some h ∧
          dbHashLookup r.engine p = some h ∧
          alookup p r.engine.st.state.files
            = some ⟨h, env.now, f.modTime, f.size⟩) := by
  refine ⟨fullReconcileCore env cfg e₀, by simp [fullReconcile, hL1, hL2], ?_, ?_, ?_⟩
  all_goals {
    have hsub := scan_toSync_sublist env e₀ (walkLocalFiles env cfg)
    have hnd2 : (scanLocal env e₀ (walkLocalFiles env cfg)).2.Nodup := hsub.nodup hND
    obtain ⟨sframe, sretry, sgood, skA, skN⟩ :=
      syncAll_spec env cfg q (scanLocal env e₀ (walkLocalFiles env cfg)).2 e₀
        hnd2 hgood (fun _ => hbad) hKA hKN
    have hretryEq : (fullReconcileCore env cfg e₀).engine.retryQueue
        = (syncAll env cfg e₀ (scanLocal env e₀ (walkLocalFiles env cfg)).2).retryQueue :=
      applyDeletes_retry env _ _
    first
    | -- the failing path is queued with count 0
      (rw [hretryEq, sretry q]
       simp [hq])
    | -- no other path is queued
      (intro x hx
       rw [hretryEq, sretry x]
       simp only [hx, and_false, if_false, hRQ]
       rfl)
    | -- every other sync-set path is upserted and cached
      (intro p hp hne
       have hp' : p ∈ (scanLocal env e₀ (walkLocalFiles env cfg)).2 := hp
       obtain ⟨f, h, hf, hh, hdb, hcache⟩ := sgood p hp' hne
       have hbind : (env.fileAt p).bind LocalFile.hashResult = some h := by
         rw [hf]; exact hh
       have hmemf : p ∈ walkLocalFiles env cfg :=
         (scan_toSync_mem env e₀ (walkLocalFiles env cfg) p hp').1
       have hlh : alookup p (scanLocal env e₀ (walkLocalFiles env cfg)).1 = some h :=
         scan_lh_some env e₀ p h hbind (walkLocalFiles env cfg) hmemf
       have hptd : p ∉ computeToDelete e₀ (scanLocal env e₀ (walkLocalFiles env cfg)).1 := by
         intro hx
         rw [mem_computeToDelete] at hx
         rw [hx.2] at hlh
         cases hlh
       refine ⟨f, h, hf, hh, ?_, ?_⟩
       · have hEq : dbHashLookup (fullReconcileCore env cfg e₀).engine p
             = dbHashLookup (applyDeletes env
                 (syncAll env cfg e₀ (scanLocal env e₀ (walkLocalFiles env cfg)).2)
                 (computeToDelete e₀ (scanLocal env e₀ (walkLocalFiles env cfg)).1)) p := rfl
         rw [hEq, applyDeletes_db_frame env _ _ p hptd]
         exact hdb
       · have hEq : (fullReconcileCore env cfg e₀).engine.st.state.files
             = (applyDeletes env
                 (syncAll env cfg e₀ (scanLocal env e₀ (walkLocalFiles env cfg)).2)
                 (computeToDelete e₀ (scanLocal env e₀ (walkLocalFiles env cfg)).1)).st.state.files := rfl
         rw [hEq, applyDeletes_st, foldl_removeFileState_files, if_neg hptd]
         exact hcache) }

/--
C5 (amended): two consecutive full reconciliations with no intervening local
or remote changes produce an empty sync set and an empty delete set on the
second run, provided that during the first run every sync-set path upserts
cleanly (file present and hashable, within the binary-size cap for
attachments, parse and remote upserts succeed, and the cache does not already
record the path's current fingerprint while the remote store disagrees) and
the batched deletes succeed.
-/
theorem claim_C5_idempotence (env : Env) (cfg : Config) (e₀ : Engine)
    (hL1 : env.listNoteHashesFails = false)
    (hL2 : env.listAttachmentHashesFails = false)
    (hNF : env.batchDeleteNotesFails = false)
    (hAF : env.batchDeleteAttachmentsFails = false)
    (hKA : ∀ r, isMarkdown r = true → alookup r e₀.dbAtts = none)
    (hKN : ∀ r, isMarkdown r = false → alookup r e₀.dbNotes = none)
    (hND : (walkLocalFiles env cfg).Nodup)
    (hgood : ∀ p, p ∈ (scanLocal env e₀ (walkLocalFiles env cfg)).2 →
      goodUpsert env cfg p (alookup p e₀.st.state.files) = true) :
    ∃ r₁ r₂ : ReconcileResult, fullReconcile env cfg e₀ = some r₁ ∧
      fullReconcile env cfg r₁.engine = some r₂ ∧
      r₂.toSync = [] ∧ r₂.toDelete = [] := by
  refine ⟨fullReconcileCore env cfg e₀,
    fullReconcileCore env cfg (fullReconcileCore env cfg e₀).engine,
    by simp [fullReconcile, hL1, hL2], by simp [fullReconcile, hL1, hL2], ?_, ?_⟩
  all_goals {
    have hsub := scan_toSync_sublist env e₀ (walkLocalFiles env cfg)
    have hnd2 : (scanLocal env e₀ (walkLocalFiles env cfg)).2.Nodup := hsub.nodup hND
    obtain ⟨sframe, sretry, sgood⟩ :=
      syncAll_all_good env cfg (scanLocal env e₀ (walkLocalFiles env cfg)).2 e₀
        hnd2 hgood hKA hKN
    obtain ⟨kA, kN⟩ :=
      syncAll_kind_preserve env cfg (scanLocal env e₀ (walkLocalFiles env cfg)).2 e₀ hKA hKN
    have hE : ∀ x, dbHashLookup (fullReconcileCore env cfg e₀).engine x
        = dbHashLookup (applyDeletes env
            (syncAll env cfg e₀ (scanLocal env e₀ (walkLocalFiles env cfg)).2)
            (computeToDelete e₀ (scanLocal env e₀ (walkLocalFiles env cfg)).1)) x :=
      fun _ => rfl
    -- the remote inventory after run one matches every hashable local file
    have hmatch : ∀ x ∈ walkLocalFiles env cfg,
        ∀ h, (env.fileAt x).bind LocalFile.hashResult = some h →
          dbHashLookup (fullReconcileCore env cfg e₀).engine x = some h := by
      intro x hxf h hbind
      have hlh : alookup x (scanLocal env e₀ (walkLocalFiles env cfg)).1 = some h :=
        scan_lh_some env e₀ x h hbind (walkLocalFiles env cfg) hxf
      have hxtd : x ∉ computeToDelete e₀ (scanLocal env e₀ (walkLocalFiles env cfg)).1 := by
        intro hx
        rw [mem_computeToDelete] at hx
        rw [hx.2] at hlh
        cases hlh
      rw [hE x, applyDeletes_db_frame env _ _ x hxtd]
      by_cases hxs : x ∈ (scanLocal env e₀ (walkLocalFiles env cfg)).2
      · obtain ⟨f, h', hf, hh', hdb, _⟩ := sgood x hxs
        have : h' = h := by
          rw [hf] at hbind
          have hbind' : f.hashResult = some h := hbind
          rw [hh'] at hbind'
          exact Option.some.inj hbind'
        rw [← this]
        exact hdb
      · rw [(sframe x hxs).1]
        exact scan_not_toSync env e₀ (walkLocalFiles env cfg) x h hxf hbind hxs
    first
    | -- the second run's sync set is empty
      exact scan_toSync_nil env (fullReconcileCore env cfg e₀).engine
        (walkLocalFiles env cfg) hmatch
    | -- the second run's delete set is empty
      (show computeToDelete (fullReconcileCore env cfg e₀).engine
          (scanLocal env (fullReconcileCore env cfg e₀).engine
            (walkLocalFiles env cfg)).1 = []
       rw [show (scanLocal env (fullReconcileCore env cfg e₀).engine
            (walkLocalFiles env cfg)).1
          = (scanLocal env e₀ (walkLocalFiles env cfg)).1 from
          scan_lh_indep env _ e₀ (walkLocalFiles env cfg)]
       unfold computeToDelete
       rw [List.filter_eq_nil_iff]
       intro x hx
       have hxs2 : (dbHashLookup (fullReconcileCore env cfg e₀).engine x).isSome = true :=
         (dbHashLookup_isSome_iff _ x).mpr hx
       by_cases hxtd : x ∈ computeToDelete e₀
           (scanLocal env e₀ (walkLocalFiles env cfg)).1
       · exfalso
         have hdel := applyDeletes_deleted env
           (syncAll env cfg e₀ (scanLocal env e₀ (walkLocalFiles env cfg)).2)
           (computeToDelete e₀ (scanLocal env e₀ (walkLocalFiles env cfg)).1)
           x hNF hAF kA kN hxtd
         rw [hE x, hdel] at hxs2
         cases hxs2
       · rw [hE x, applyDeletes_db_frame env _ _ x hxtd] at hxs2
         by_cases hxs : x ∈ (scanLocal env e₀ (walkLocalFiles env cfg)).2
         · obtain ⟨f, h', hf, hh', _, _⟩ := sgood x hxs
           have hbind : (env.fileAt x).bind LocalFile.hashResult = some h' := by
             rw [hf]; exact hh'
           have hmemf : x ∈ walkLocalFiles env cfg :=
             (scan_toSync_mem env e₀ (walkLocalFiles env cfg) x hxs).1
           have hlh := scan_lh_some env e₀ x h' hbind (walkLocalFiles env cfg) hmemf
           simp [hlh]
         · rw [(sframe x hxs).1] at hxs2
           have hxk0 : x ∈ dbKeys e₀ := (dbHashLookup_isSome_iff e₀ x).mp hxs2
           have hne : alookup x (scanLocal env e₀ (walkLocalFiles env cfg)).1 ≠ none :=
             fun hnone => hxtd ((mem_computeToDelete e₀ _ x).mpr ⟨hxk0, hnone⟩)
           simp [Option.isNone_iff_eq_none, hne]) }

/--
C10: during full reconciliation, a local file whose fingerprint computation
fails is treated as locally absent — it enters neither the local-hash map nor
the sync set — so when the path exists in the remote inventory it is placed in
the delete set, a batched remote delete containing it is issued, and (with
kind-separated tables and successful batch deletes) the path is gone from the
remote inventory afterwards, even though the file still exists on disk.
-/
theorem claim_C10_hash_failure_deletes (env : Env) (cfg : Config) (e₀ : Engine)
    (p : String) (f : LocalFile) (dbh : String)
    (hL1 : env.listNoteHashesFails = false)
    (hL2 : env.listAttachmentHashesFails = false)
    (hNF : env.batchDeleteNotesFails = false)
    (hAF : env.batchDeleteAttachmentsFails = false)
    (hKA : ∀ r, isMarkdown r = true → alookup r e₀.dbAtts = none)
    (hKN : ∀ r, isMarkdown r = false → alookup r e₀.dbNotes = none)
    (hfile : env.fileAt p = some f)
    (hhash : f.hashResult = none)
    (_hmem : p ∈ walkLocalFiles env cfg)
    (hdb : dbHashLookup e₀ p = some dbh) :
    ∃ r : ReconcileResult, fullReconcile env cfg e₀ = some r ∧
      alookup p r.localHashes = none ∧
      p ∉ r.toSync ∧
      p ∈ r.toDelete ∧
      dbHashLookup r.engine p = none ∧
      ∃ ns, p ∈ ns ∧
        (RemoteCall.batchDeleteNotes ns ∈ r.engine.calls ∨
         RemoteCall.batchDeleteAttachments ns ∈ r.engine.calls) := by
  have hbind : (env.fileAt p).bind LocalFile.hashResult = none := by
    rw [hfile]; exact hhash
  have hlhnone : alookup p (scanLocal env e₀ (walkLocalFiles env cfg)).1 = none :=
    scan_lh_none env e₀ p hbind (walkLocalFiles env cfg)
  have hptd : p ∈ computeToDelete e₀ (scanLocal env e₀ (walkLocalFiles env cfg)).1 :=
    (mem_computeToDelete e₀ _ p).mpr
      ⟨(dbHashLookup_isSome_iff e₀ p).mp (by rw [hdb]; rfl), hlhnone⟩
  obtain ⟨kA, kN⟩ :=
    syncAll_kind_preserve env cfg (scanLocal env e₀ (walkLocalFiles env cfg)).2 e₀ hKA hKN
  refine ⟨fullReconcileCore env cfg e₀, by simp [fullReconcile, hL1, hL2],
    hlhnone, ?_, hptd, ?_, ?_⟩
  · intro hx
    obtain ⟨_, h, hsome, _⟩ :=
      scan_toSync_mem env e₀ (walkLocalFiles env cfg) p hx
    rw [hbind] at hsome
    cases hsome
  · exact applyDeletes_deleted env
      (syncAll env cfg e₀ (scanLocal env e₀ (walkLocalFiles env cfg)).2)
      (computeToDelete e₀ (scanLocal env e₀ (walkLocalFiles env cfg)).1)
      p hNF hAF kA kN hptd
  · have hcalls := applyDeletes_calls env
      (syncAll env cfg e₀ (scanLocal env e₀ (walkLocalFiles env cfg)).2)
      (computeToDelete e₀ (scanLocal env e₀ (walkLocalFiles env cfg)).1) p hptd
    cases hmd : isMarkdown p with
    | true =>
      refine ⟨(computeToDelete e₀
          (scanLocal env e₀ (walkLocalFiles env cfg)).1).filter (fun x => isMarkdown x),
        List.mem_filter.mpr ⟨hptd, hmd⟩, Or.inl (hcalls.1 hmd)⟩
    | false =>
      refine ⟨(computeToDelete e₀
          (scanLocal env e₀ (walkLocalFiles env cfg)).1).filter (fun x => ! isMarkdown x),
        List.mem_filter.mpr ⟨hptd, by simp [hmd]⟩, Or.inr (hcalls.2 hmd)⟩

/-! ## Concrete sample data for witnesses and counterexamples -/

/-- A small concrete environment: one healthy markdown note `a.md` (hash
`"H1"`), one oversized binary `big.png` (hash `"H2"`), nothing else on disk,
all external operations succeeding. -/
def envA : Env :=
  { entries := [("a.md", false)],
    fileAt := fun p =>
      if p = "a.md" then some ⟨false, false, 5, 3, some "H1", true⟩
      else if p = "big.png" then some ⟨false, false, 2000000, 3, some "H2", true⟩
      else none,
    now := 7,
    globMatch := fun _ _ => false,
    parseFails := fun _ => false,
    noteUpsertFails := fun _ => false,
    attUpsertFails := fun _ => false,
    deleteNoteFails := fun _ => false,
    deleteAttachmentFails := fun _ => false,
    batchDeleteNotesFails := false,
    batchDeleteAttachmentsFails := false,
    listNoteHashesFails := false,
    listAttachmentHashesFails := false }

/-- A permissive configuration: no patterns, 1 MB binary cap, 3 retries. -/
def cfgA : Config := ⟨[], [], 1000000, 3⟩

/-- An engine with empty cache, empty remote store, empty retry queue. -/
def engine0 : Engine := ⟨⟨⟨"/v", none, []⟩, "sf.json", false⟩, [], [], [], []⟩

/-- An engine whose cache already records `a.md ↦ H1`. -/
def engineA : Engine :=
  ⟨⟨⟨"/v", none, [("a.md", ⟨"H1", 0, 0, 5⟩)]⟩, "sf.json", false⟩, [], [], [], []⟩

/-- Two healthy notes on disk, but the remote upsert of `b.md` fails. -/
def envC1 : Env :=
  { entries := [("a.md", false), ("b.md", false)],
    fileAt := fun p =>
      if p = "a.md" then some ⟨false, false, 3, 1, some "HA", true⟩
      else if p = "b.md" then some ⟨false, false, 3, 1, some "HB", true⟩
      else none,
    now := 9,
    globMatch := fun _ _ => false,
    parseFails := fun _ => false,
    noteUpsertFails := fun p => p == "b.md",
    attUpsertFails := fun _ => false,
    deleteNoteFails := fun _ => false,
    deleteAttachmentFails := fun _ => false,
    batchDeleteNotesFails := false,
    batchDeleteAttachmentsFails := false,
    listNoteHashesFails := false,
    listAttachmentHashesFails := false }

/-- One note on disk whose hashing fails with an I/O error. -/
def envC10 : Env :=
  { entries := [("bad.md", false)],
    fileAt := fun p =>
      if p = "bad.md" then some ⟨false, false, 3, 1, none, true⟩
      else none,
    now := 4,
    globMatch := fun _ _ => false,
    parseFails := fun _ => false,
    noteUpsertFails := fun _ => false,
    attUpsertFails := fun _ => false,
    deleteNoteFails := fun _ => false,
    deleteAttachmentFails := fun _ => false,
    batchDeleteNotesFails := false,
    batchDeleteAttachmentsFails := false,
    listNoteHashesFails := false,
    listAttachmentHashesFails := false }

/-- An engine whose remote notes table already holds `bad.md ↦ HX`. -/
def engineC10 : Engine :=
  ⟨⟨⟨"/v", none, []⟩, "sf.json", false⟩, [("bad.md", "HX")], [], [], []⟩

example : isMarkdown "a.md" = true := by decide
example : isMarkdown "big.png" = false := by decide

/--
C6: whenever the freshly computed fingerprint of a path equals the fingerprint
recorded in the state cache, the incremental upsert path is a complete no-op
returning nil: no Remote Store call is made (the call trace is unchanged) and
the remote inventory and the cache are left untouched.
-/
theorem claim_C6_fingerprint_gate (env : Env) (cfg : Config) (e : Engine) (p : String)
    (f : LocalFile) (h : String) (fs : FileState)
    (hf : env.fileAt p = some f) (hstat : f.statErr = false)
    (hh : f.hashResult = some h)
    (hfs : alookup p e.st.state.files = some fs) (heq : fs.hash = h) :
    upsertFile env cfg e p = (true, e) :=
  upsertFile_gate_noop env cfg e p f h fs hf hstat hh hfs heq

/-- Witness for C6: `a.md` with fresh hash `H1` already cached as `H1`. -/
theorem claim_C6_fingerprint_gate_witness :
    upsertFile envA cfgA engineA "a.md" = (true, engineA) :=
  claim_C6_fingerprint_gate envA cfgA engineA "a.md"
    ⟨false, false, 5, 3, some "H1", true⟩ "H1" ⟨"H1", 0, 0, 5⟩
    (by decide) rfl rfl (by decide) rfl

/--
C8: a `create`/`modify` event whose target no longer exists on disk when
processed is a benign no-op: `SyncFile` returns nil without any Remote Store
call or state-cache change.
-/
theorem claim_C8_vanished_noop (env : Env) (cfg : Config) (e : Engine) (p : String)
    (t : EventType) (ht : t = EventType.create ∨ t = EventType.modify)
    (hf : env.fileAt p = none) :
    syncFile env cfg e p t = (true, e) := by
  rcases ht with h | h <;> subst h <;> simp [syncFile, upsertFile, hf]

/-- Witness for C8: a create event for a path absent from disk. -/
theorem claim_C8_vanished_noop_witness :
    syncFile envA cfgA engine0 "ghost.md" EventType.create = (true, engine0) :=
  claim_C8_vanished_noop envA cfgA engine0 "ghost.md" EventType.create
    (Or.inl rfl) (by decide)

/--
C9: an attachment exceeding the configured maximum binary size is skipped
without any Remote Store call, yet its fingerprint, timestamps and size are
recorded in the state cache as if synced; consequently a second event for the
unchanged file is a complete no-op (skipped by the fingerprint gate).
-/
theorem claim_C9_oversize_attachment (env : Env) (cfg : Config) (e : Engine)
    (p : String) (f : LocalFile) (h : String)
    (hf : env.fileAt p = some f) (hstat : f.statErr = false)
    (hdir : f.isDir = false) (hig : shouldIgnore env cfg p = false)
    (hh : f.hashResult = some h) (hmd : isMarkdown p = false)
    (hsize : f.size > cfg.maxBinarySize)
    (hns : e.st.needsSync p h = true) :
    upsertFile env cfg e p =
      (true, { e with st := e.st.setFileState p ⟨h, env.now, f.modTime, f.size⟩ })
    ∧ upsertFile env cfg
        { e with st := e.st.setFileState p ⟨h, env.now, f.modTime, f.size⟩ } p
      = (true, { e with st := e.st.setFileState p ⟨h, env.now, f.modTime, f.size⟩ }) := by
  constructor
  · simp [upsertFile, syncAttachment, hf, hstat, hdir, hig, hh, hmd, hsize, hns]
  · exact upsertFile_gate_noop env cfg _ p f h ⟨h, env.now, f.modTime, f.size⟩
      hf hstat hh (by simp [StateTracker.setFileState]) rfl

/-- Witness for C9: the 2 MB `big.png` against the 1 MB cap. -/
theorem claim_C9_oversize_attachment_witness :
    upsertFile envA cfgA engine0 "big.png" =
      (true, { engine0 with
        st := engine0.st.setFileState "big.png" ⟨"H2", 7, 3, 2000000⟩ })
    ∧ upsertFile envA cfgA
        { engine0 with st := engine0.st.setFileState "big.png" ⟨"H2", 7, 3, 2000000⟩ }
        "big.png"
      = (true, { engine0 with
          st := engine0.st.setFileState "big.png" ⟨"H2", 7, 3, 2000000⟩ }) :=
  claim_C9_oversize_attachment envA cfgA engine0 "big.png"
    ⟨false, false, 2000000, 3, some "H2", true⟩ "H2"
    (by decide) rfl rfl (by decide) rfl (by decide) (by decide) rfl

/--
C1 counterexample: the claim as stated says the failing path enters the retry
queue with attempt count 1.  On the concrete reconciliation where `b.md`'s
remote upsert fails, the retry-queue entry for `b.md` holds attempt count 0,
not 1 (`FullReconcile` executes `e.retryQueue[relPath] = 0`).
-/
theorem claim_C1_counterexample :
    ∃ r : ReconcileResult, fullReconcile envC1 cfgA engine0 = some r ∧
      alookup "b.md" r.engine.retryQueue = some 0 ∧
      ¬ alookup "b.md" r.engine.retryQueue = some 1 := by
  refine ⟨fullReconcileCore envC1 cfgA engine0, rfl, ?_, ?_⟩ <;> decide

/-- Witness for C1 (amended) on the concrete two-file run with `b.md`
failing. -/
theorem claim_C1_partial_failure_isolation_witness :
    ∃ r : ReconcileResult, fullReconcile envC1 cfgA engine0 = some r ∧
      alookup "b.md" r.engine.retryQueue = some 0 ∧
      (∀ x, x ≠ "b.md" → alookup x r.engine.retryQueue = none) ∧
      (∀ p, p ∈ r.toSync → p ≠ "b.md" →
        ∃ f h, envC1.fileAt p = some f ∧ f.hashResult = some h ∧
          dbHashLookup r.engine p = some h ∧
          alookup p r.engine.st.state.files
            = some ⟨h, envC1.now, f.modTime, f.size⟩) :=
  claim_C1_partial_failure_isolation envC1 cfgA engine0 "b.md"
    rfl rfl rfl (fun _ _ => rfl) (fun _ _ => rfl)
    (by decide) (by decide) (by decide) (by decide)

/--
C5 counterexample: the claim as stated fails when the state cache already
records a path's current fingerprint while the remote store disagrees.  With
local `a.md ↦ H1`, an empty remote store, and a cache holding `a.md ↦ H1`,
the fingerprint gate skips the upsert in run one, so run two's sync set is
again nonempty.
-/
theorem claim_C5_counterexample :
    ∃ r₁ r₂ : ReconcileResult, fullReconcile envA cfgA engineA = some r₁ ∧
      fullReconcile envA cfgA r₁.engine = some r₂ ∧
      ¬ r₂.toSync = [] := by
  refine ⟨fullReconcileCore envA cfgA engineA,
    fullReconcileCore envA cfgA (fullReconcileCore envA cfgA engineA).engine,
    rfl, rfl, by decide⟩

/-- Witness for C5 (amended) on a clean one-note run from an empty cache and
empty remote store. -/
theorem claim_C5_idempotence_witness :
    ∃ r₁ r₂ : ReconcileResult, fullReconcile envA cfgA engine0 = some r₁ ∧
      fullReconcile envA cfgA r₁.engine = some r₂ ∧
      r₂.toSync = [] ∧ r₂.toDelete = [] :=
  claim_C5_idempotence envA cfgA engine0 rfl rfl rfl rfl
    (fun _ _ => rfl) (fun _ _ => rfl) (by decide) (by decide)

/-- Witness for C10: `bad.md` exists on disk but fails to hash while the
remote notes table still holds it. -/
theorem claim_C10_hash_failure_deletes_witness :
    ∃ r : ReconcileResult, fullReconcile envC10 cfgA engineC10 = some r ∧
      alookup "bad.md" r.localHashes = none ∧
      "bad.md" ∉ r.toSync ∧
      "bad.md" ∈ r.toDelete ∧
      dbHashLookup r.engine "bad.md" = none ∧
      ∃ ns, "bad.md" ∈ ns ∧
        (RemoteCall.batchDeleteNotes ns ∈ r.engine.calls ∨
         RemoteCall.batchDeleteAttachments ns ∈ r.engine.calls) :=
  claim_C10_hash_failure_deletes envC10 cfgA engineC10 "bad.md"
    ⟨false, false, 3, 1, none, true⟩ "HX"
    rfl rfl rfl rfl (fun _ _ => rfl)
    (by
      intro r hr
      have hne : ¬ ("bad.md" = r) := by
        intro h
        rw [← h] at hr
        exact absurd hr (by decide)
      simp [alookup, hne])
    (by decide) rfl (by decide) (by decide)

end ObsyncPG
